import Mathlib

/-!
Shallow embedding of the BIND10/Kea DDNS update session engine
(`src/lib/python/isc/ddns/session.py`) and proofs about it.

Names are modelled as label lists (apex-first), Rdata as opaque naturals,
and the zone store as a list of RRsets.  Python exceptions that can escape
the session code (AttributeError on a `None` rrset, ValueError from
`list.remove`, UnboundLocalError in `rrset_as_rrs`, and a data-source error
at commit time) are modelled with an explicit `Except PyErr` channel;
`UpdateError` (which `handle()` catches) is a separate `Except Rcode`
channel in `get_update_zone`.
-/

/-- DNS names, as the list of labels from the root outward
(`example.com` is `[com, example]`); a subdomain extends the list. -/
abbrev Name := List Nat

/-- RR type, identified by its 16-bit code. -/
structure RRType where
  code : Nat
deriving DecidableEq, Repr

/-- RR class, identified by its 16-bit code. -/
structure RRClass where
  code : Nat
deriving DecidableEq, Repr

/-- Rdata payloads are opaque values compared by canonical equality. -/
abbrev Rdata := Nat

def RRType.SOA : RRType := ⟨6⟩

def RRType.NS : RRType := ⟨2⟩

def RRType.CNAME : RRType := ⟨5⟩

def RRType.A : RRType := ⟨1⟩

def RRType.ANY : RRType := ⟨255⟩

def RRClass.IN : RRClass := ⟨1⟩

def RRClass.ANY : RRClass := ⟨255⟩

def RRClass.NONE : RRClass := ⟨254⟩

/-- An RRset: owner name, class, type, TTL and the Rdata sequence. -/
structure RRset where
  name : Name
  rrclass : RRClass
  rrtype : RRType
  ttl : Nat
  rdata : List Rdata
deriving DecidableEq, Repr

/-- DNS response codes (standard numeric assignments). -/
structure Rcode where
  code : Nat
deriving DecidableEq, Repr

def Rcode.NOERROR : Rcode := ⟨0⟩

def Rcode.FORMERR : Rcode := ⟨1⟩

def Rcode.SERVFAIL : Rcode := ⟨2⟩

def Rcode.NXDOMAIN : Rcode := ⟨3⟩

def Rcode.NOTIMP : Rcode := ⟨4⟩

def Rcode.YXDOMAIN : Rcode := ⟨6⟩

def Rcode.YXRRSET : Rcode := ⟨7⟩

def Rcode.NXRRSET : Rcode := ⟨8⟩

def Rcode.NOTAUTH : Rcode := ⟨9⟩

def Rcode.NOTZONE : Rcode := ⟨10⟩

/-- Result codes of `UpdateSession.handle()`. -/
def UPDATE_SUCCESS : Nat := 0

def UPDATE_ERROR : Nat := 1

def UPDATE_DROP : Nat := 2

/-- Python exceptions that can escape the session code (the module catches
only `UpdateError`); plus the data-source error raised at commit time. -/
inductive PyErr where
  | attributeError
  | valueError
  | unboundLocal
  | indexError
  | datasrcError
deriving DecidableEq, Repr

/-- The authoritative zone store: a list of RRsets.  A well-formed store has
at most one RRset per (name, type) key and no empty stored RRset. -/
abbrev Zone := List RRset

/-- Tests whether `p` is a leading-label prefix of `n` (so `n` is `p` itself
or a subdomain of `p`). -/
def nameStartsWith : Name → Name → Bool
  | [], _ => true
  | _ :: _, [] => false
  | a :: p, b :: n => a == b && nameStartsWith p n

/-- Outcomes of `Name.compare(...).get_relation()`. -/
inductive NameRelation where
  | equal
  | subdomain
  | superdomain
  | commonancestor
deriving DecidableEq, Repr

/-- The relation of `n1` to `n2` under `Name.compare`. -/
def nameRelation (n1 n2 : Name) : NameRelation :=
  if n1 = n2 then .equal
  else if nameStartsWith n2 n1 then .subdomain
  else if nameStartsWith n1 n2 then .superdomain
  else .commonancestor

/-- Mirrors `UpdateSession.__check_in_zone`: true when the RRset's owner is
the zone apex or a subdomain of it. -/
def check_in_zone (rrset : RRset) (zname : Name) : Bool :=
  decide (nameRelation rrset.name zname = .subdomain ∨
          nameRelation rrset.name zname = .equal)

/-- First stored RRset with the given owner name and type. -/
def zoneFind : Zone → Name → RRType → Option RRset
  | [], _, _ => none
  | rs :: z, n, t =>
    if rs.name = n ∧ rs.rrtype = t then some rs else zoneFind z n t

/-- All stored RRsets with the given owner name. -/
def zoneFindAll (z : Zone) (n : Name) : List RRset :=
  z.filter (fun rs => decide (rs.name = n))

/-- Find statuses of `ZoneFinder.find` that this engine can observe. -/
inductive FindStatus where
  | success
  | nxdomain
  | nxrrset
  | cnameFound
deriving DecidableEq, Repr

/-- Result of `ZoneFinder.find`: a status and an optional RRset. -/
structure FindResult where
  status : FindStatus
  rrset : Option RRset
deriving DecidableEq, Repr

/-- Modelled from the spec: `ZoneFinder.find(name, type, NO_WILDCARD |
FIND_GLUE_OK)` of the external data source (spec §6).  It returns SUCCESS
with the stored RRset on an exact (name, type) match; the CNAME status with
the CNAME RRset when the name owns a CNAME and another type was requested;
NXRRSET when the name exists with other data; NXDOMAIN otherwise.  Queries
always pass NO_WILDCARD, so the RESULT_WILDCARD flag is never set and is
omitted. -/
def finderFind (z : Zone) (n : Name) (t : RRType) : FindResult :=
  match zoneFind z n t with
  | some rs => ⟨.success, some rs⟩
  | none =>
    if t ≠ RRType.CNAME then
      match zoneFind z n RRType.CNAME with
      | some c => ⟨.cnameFound, some c⟩
      | none =>
        if zoneFindAll z n ≠ [] then ⟨.nxrrset, none⟩ else ⟨.nxdomain, none⟩
    else if zoneFindAll z n ≠ [] then ⟨.nxrrset, none⟩ else ⟨.nxdomain, none⟩

/-- Modelled from the spec: `ZoneFinder.find_all(name, ...)` (spec §6),
returning SUCCESS with all RRsets at the name when it exists and NXDOMAIN
with an empty list otherwise; RESULT_WILDCARD is never set. -/
def finderFindAll (z : Zone) (n : Name) : FindStatus × List RRset :=
  if zoneFindAll z n ≠ [] then (.success, zoneFindAll z n) else (.nxdomain, [])

/-- A buffered diff operation; `add`/`del` correspond to
`Diff.add_data`/`Diff.delete_data`. -/
inductive DiffOp where
  | add (rr : RRset)
  | del (rr : RRset)
deriving DecidableEq, Repr

/-- Insert one Rdata, keeping set semantics (stored RRsets hold no
duplicate Rdata). -/
def insertRd (l : List Rdata) (r : Rdata) : List Rdata :=
  if r ∈ l then l else l ++ [r]

/-- Insert each Rdata of `new` into `l`. -/
def insertAll (l new : List Rdata) : List Rdata :=
  new.foldl insertRd l

/-- Erase (one occurrence of) each Rdata of `rem` from `l`. -/
def eraseAll (l rem : List Rdata) : List Rdata :=
  rem.foldl List.erase l

/-- Modelled from the spec: committing an `add` buffered in the Diff
(spec §4.6) merges the record's Rdata into the stored RRset at the same
(name, type), creating the RRset when absent. -/
def applyAdd (rr : RRset) : Zone → Zone
  | [] => [rr]
  | rs :: z =>
    if rs.name = rr.name ∧ rs.rrtype = rr.rrtype then
      { rs with rdata := insertAll rs.rdata rr.rdata } :: z
    else rs :: applyAdd rr z

/-- Modelled from the spec: committing a `delete` buffered in the Diff
(spec §4.6) removes the record's Rdata from the stored RRset at the same
(name, type), dropping the RRset when it becomes empty. -/
def applyDel (rr : RRset) : Zone → Zone
  | [] => []
  | rs :: z =>
    if rs.name = rr.name ∧ rs.rrtype = rr.rrtype then
      if eraseAll rs.rdata rr.rdata = [] then z
      else { rs with rdata := eraseAll rs.rdata rr.rdata } :: z
    else rs :: applyDel rr z

def applyOp (z : Zone) : DiffOp → Zone
  | .add rr => applyAdd rr z
  | .del rr => applyDel rr z

/-- Modelled from the spec: `Diff.commit()` applies the buffered operations
to the data source in insertion order, atomically (spec §4.6). -/
def applyDiff (z : Zone) (d : List DiffOp) : Zone :=
  d.foldl applyOp z

/-- The one-Rdata RRset built inside `rrset_as_rrs` for a single Rdata. -/
def oneRR (rs : RRset) (r : Rdata) : RRset :=
  ⟨rs.name, rs.rrclass, rs.rrtype, rs.ttl, [r]⟩

/-- Mirrors `rrset_as_rrs(to_delete, diff.delete_data, to_delete)`: one
delete operation per Rdata.  An RRset without Rdata makes `rrset_as_rrs`
hit its unbound `result` variable (an UnboundLocalError). -/
def rrset_as_rrs_delete (rs : RRset) : Except PyErr (List DiffOp) :=
  if rs.rdata = [] then .error .unboundLocal
  else .ok (rs.rdata.map (fun r => .del (oneRR rs r)))

/-- Mirrors `rrset_as_rrs(rrset, self.__set_soa_rrset, rrset)` in the
prescan: `__added_soa` is overwritten with a one-Rdata RRset per Rdata, the
last one winning; an RRset without Rdata raises in `rrset_as_rrs`. -/
def rrset_as_rrs_capture (rs : RRset) (acc : Option RRset) :
    Except PyErr (Option RRset) :=
  if rs.rdata = [] then .error .unboundLocal
  else .ok (rs.rdata.foldl (fun _ r => some (oneRR rs r)) acc)

/-- Mirrors `rrset_class_conversion`: same name/type/ttl/rdata under the
given class (Rdata are reconstructed from wire form, value unchanged). -/
def rrset_class_conversion (rrset : RRset) (c : RRClass) : RRset :=
  { rrset with rrclass := c }

/-- Mirrors `__prereq_rrset_exists`. -/
def prereq_rrset_exists (z : Zone) (rrset : RRset) : Bool :=
  decide ((finderFind z rrset.name rrset.rrtype).status = .success)

/-- The Rdata-matching loop of `__prereq_rrset_exists_value`: walk the
prerequisite's Rdata, removing each from a copy of the found list, and
require the copy to be exhausted. -/
def rdata_multiset_match : List Rdata → List Rdata → Bool
  | [], found => found.isEmpty
  | r :: rest, found =>
    if r ∈ found then rdata_multiset_match rest (found.erase r) else false

/-- Mirrors `__prereq_rrset_exists_value`.  (With this finder a SUCCESS
result always carries an RRset, so the `None` dereference is unreachable
and mapped to `false`.) -/
def prereq_rrset_exists_value (z : Zone) (rrset : RRset) : Bool :=
  match finderFind z rrset.name rrset.rrtype with
  | ⟨.success, some found⟩ =>
    if rrset.name = found.name ∧ rrset.rrtype = found.rrtype then
      rdata_multiset_match rrset.rdata found.rdata
    else false
  | _ => false

/-- Mirrors `__prereq_rrset_does_not_exist`. -/
def prereq_rrset_does_not_exist (z : Zone) (rrset : RRset) : Bool :=
  ! prereq_rrset_exists z rrset

/-- Mirrors `__prereq_name_in_use`. -/
def prereq_name_in_use (z : Zone) (rrset : RRset) : Bool :=
  decide ((finderFindAll z rrset.name).1 = .success)

/-- Mirrors `__prereq_name_not_in_use`. -/
def prereq_name_not_in_use (z : Zone) (rrset : RRset) : Bool :=
  ! prereq_name_in_use z rrset

/-- Mirrors `__check_prerequisites`: walk the prerequisite section in order
and return the first failure rcode, or NOERROR. -/
def check_prerequisites (z : Zone) (zname : Name) (zclass : RRClass) :
    List RRset → Rcode
  | [] => Rcode.NOERROR
  | rrset :: rest =>
    if ¬ check_in_zone rrset zname then Rcode.NOTZONE
    else if rrset.rrclass = RRClass.ANY then
      if rrset.ttl ≠ 0 ∨ rrset.rdata.length ≠ 0 then Rcode.FORMERR
      else if rrset.rrtype = RRType.ANY then
        if ¬ prereq_name_in_use z rrset then Rcode.NXDOMAIN
        else check_prerequisites z zname zclass rest
      else
        if ¬ prereq_rrset_exists z rrset then Rcode.NXRRSET
        else check_prerequisites z zname zclass rest
    else if rrset.rrclass = RRClass.NONE then
      if rrset.ttl ≠ 0 ∨ rrset.rdata.length ≠ 0 then Rcode.FORMERR
      else if rrset.rrtype = RRType.ANY then
        if ¬ prereq_name_not_in_use z rrset then Rcode.YXDOMAIN
        else check_prerequisites z zname zclass rest
      else
        if ¬ prereq_rrset_does_not_exist z rrset then Rcode.YXRRSET
        else check_prerequisites z zname zclass rest
    else if rrset.rrclass = zclass then
      if rrset.ttl ≠ 0 then Rcode.FORMERR
      else
        if ¬ prereq_rrset_exists_value z rrset then Rcode.NXRRSET
        else check_prerequisites z zname zclass rest
    else Rcode.FORMERR

/-- Mirrors the loop of `__do_prescan`, threading the `__added_soa` slot;
returns the rcode together with the captured candidate SOA. -/
def do_prescan_loop (zname : Name) (zclass : RRClass) :
    List RRset → Option RRset → Except PyErr (Rcode × Option RRset)
  | [], acc => .ok (Rcode.NOERROR, acc)
  | rrset :: rest, acc =>
    if ¬ check_in_zone rrset zname then .ok (Rcode.NOTZONE, acc)
    else if rrset.rrclass = zclass then
      if rrset.rrtype.code ≥ 249 then .ok (Rcode.FORMERR, acc)
      else if rrset.rrtype = RRType.SOA then
        match rrset_as_rrs_capture rrset acc with
        | .error e => .error e
        | .ok acc2 => do_prescan_loop zname zclass rest acc2
      else do_prescan_loop zname zclass rest acc
    else if rrset.rrclass = RRClass.ANY then
      if rrset.ttl ≠ 0 then .ok (Rcode.FORMERR, acc)
      else if rrset.rdata.length > 0 then .ok (Rcode.FORMERR, acc)
      else if rrset.rrtype.code ≥ 249 ∧ rrset.rrtype.code ≤ 254 then
        .ok (Rcode.FORMERR, acc)
      else do_prescan_loop zname zclass rest acc
    else if rrset.rrclass = RRClass.NONE then
      if rrset.ttl ≠ 0 then .ok (Rcode.FORMERR, acc)
      else if rrset.rrtype.code ≥ 249 then .ok (Rcode.FORMERR, acc)
      else do_prescan_loop zname zclass rest acc
    else .ok (Rcode.FORMERR, acc)

/-- Mirrors `__do_prescan`: `__added_soa` starts out as `None`. -/
def do_prescan (zname : Name) (zclass : RRClass) (updates : List RRset) :
    Except PyErr (Rcode × Option RRset) :=
  do_prescan_loop zname zclass updates none

/-- Mirrors `__do_update_add_single_rr`: `rr` is a one-Rdata RRset; its
Rdata is added unless already present in the existing RRset.  Indexing an
empty Rdata list raises; so does reading Rdata off an absent
(`None`) existing RRset. -/
def do_update_add_single_rr (existing : Option RRset) (rr : RRset) :
    Except PyErr (List DiffOp) :=
  match rr.rdata with
  | [] => .error .indexError
  | r :: _ =>
    match existing with
    | none => .error .attributeError
    | some ex => if r ∈ ex.rdata then .ok [] else .ok [.add rr]

/-- The per-Rdata walk of the final `rrset_as_rrs(rrset,
self.__do_update_add_single_rr, diff, rrset, orig_rrset)` call. -/
def add_rrs_loop_go (existing : Option RRset) (rrset : RRset) :
    List Rdata → Except PyErr (List DiffOp)
  | [] => .ok []
  | r :: rest =>
    match do_update_add_single_rr existing (oneRR rrset r) with
    | .error e => .error e
    | .ok o =>
      match add_rrs_loop_go existing rrset rest with
      | .error e => .error e
      | .ok more => .ok (o ++ more)

/-- `rrset_as_rrs` over the update RRset, feeding each one-Rdata RRset to
`__do_update_add_single_rr`; empty update RRsets raise in
`rrset_as_rrs`. -/
def add_rrs_loop (existing : Option RRset) (rrset : RRset) :
    Except PyErr (List DiffOp) :=
  if rrset.rdata = [] then .error .unboundLocal
  else add_rrs_loop_go existing rrset rrset.rdata

/-- Mirrors `__do_update_add_rrs_to_rrset`. -/
def do_update_add_rrs_to_rrset (z : Zone) (rrset : RRset) :
    Except PyErr (List DiffOp) :=
  if rrset.rrtype = RRType.SOA then .ok []
  else
    match finderFind z rrset.name rrset.rrtype with
    | ⟨.success, some orig⟩ =>
      if rrset.rrtype = RRType.CNAME then
        if orig.rrtype = RRType.CNAME then
          match add_rrs_loop (some orig) rrset with
          | .error e => .error e
          | .ok o => .ok (.del orig :: o)
        else .ok []
      else if orig.rrtype = RRType.CNAME then .ok []
      else add_rrs_loop (some orig) rrset
    | ⟨.success, none⟩ =>
      .error .attributeError
    | ⟨_, orig⟩ => add_rrs_loop orig rrset

/-- Mirrors `__do_update_delete_rrset`: the find result status is not
checked, so an absent RRset (`None`) is dereferenced. -/
def do_update_delete_rrset (z : Zone) (zname : Name) (rrset : RRset) :
    Except PyErr (List DiffOp) :=
  match (finderFind z rrset.name rrset.rrtype).rrset with
  | none => .error .attributeError
  | some to_delete =>
    if to_delete.name = zname ∧
       (to_delete.rrtype = RRType.SOA ∨ to_delete.rrtype = RRType.NS) then
      .ok []
    else rrset_as_rrs_delete to_delete

/-- The loop over the found RRsets in `__do_update_delete_name`. -/
def delete_name_loop (zname : Name) :
    List RRset → Except PyErr (List DiffOp)
  | [] => .ok []
  | to_delete :: rest =>
    if to_delete.name = zname ∧
       (to_delete.rrtype = RRType.SOA ∨ to_delete.rrtype = RRType.NS) then
      delete_name_loop zname rest
    else
      match rrset_as_rrs_delete to_delete with
      | .error e => .error e
      | .ok o =>
        match delete_name_loop zname rest with
        | .error e => .error e
        | .ok more => .ok (o ++ more)

/-- Mirrors `__do_update_delete_name`. -/
def do_update_delete_name (z : Zone) (zname : Name) (rrset : RRset) :
    Except PyErr (List DiffOp) :=
  match finderFindAll z rrset.name with
  | (.success, rrsets) => delete_name_loop zname rrsets
  | _ => .ok []

/-- The Rdata loop of `__ns_deleter_helper`: `temp` is the shallow copy of
the existing apex NS Rdata; an Rdata whose removal would leave it empty is
skipped; removing an Rdata absent from the copy raises ValueError before
the delete is buffered. -/
def ns_deleter_loop (rrset : RRset) :
    List Rdata → List Rdata → Except PyErr (List DiffOp)
  | [], _ => .ok []
  | r :: rest, temp =>
    if temp = [r] then ns_deleter_loop rrset rest temp
    else if r ∈ temp then
      match ns_deleter_loop rrset rest (temp.erase r) with
      | .error e => .error e
      | .ok o => .ok (.del (oneRR rrset r) :: o)
    else .error .valueError

/-- Mirrors `__ns_deleter_helper`: the find result status is not checked,
so an absent RRset (`None`) is dereferenced. -/
def ns_deleter_helper (z : Zone) (rrset : RRset) :
    Except PyErr (List DiffOp) :=
  match (finderFind z rrset.name rrset.rrtype).rrset with
  | none => .error .attributeError
  | some orig => ns_deleter_loop rrset rrset.rdata orig.rdata

/-- Mirrors `__do_update_delete_rrs_from_rrset`: the incoming NONE-class
RRset is first re-tagged to the zone class; apex SOA deletions are ignored
and apex NS deletions go through the NS deleter helper. -/
def do_update_delete_rrs_from_rrset (z : Zone) (zname : Name)
    (zclass : RRClass) (rrset : RRset) : Except PyErr (List DiffOp) :=
  let to_delete := rrset_class_conversion rrset zclass
  if rrset.name = zname ∧ rrset.rrtype = RRType.SOA then .ok []
  else if rrset.name = zname ∧ rrset.rrtype = RRType.NS then
    ns_deleter_helper z to_delete
  else rrset_as_rrs_delete to_delete

/-- Mirrors `__update_soa`: delete the current apex SOA and add the
candidate captured by the prescan, or re-add the old SOA when no candidate
was captured.  A zone without a found apex SOA makes `delete_data(None)`
dereference `None`. -/
def update_soa (z : Zone) (zname : Name) (added_soa : Option RRset) :
    Except PyErr (List DiffOp) :=
  match (finderFind z zname RRType.SOA).rrset with
  | none => .error .attributeError
  | some old_soa => .ok [.del old_soa, .add (added_soa.getD old_soa)]

/-- The per-record dispatch of the `__do_update` loop (RFC 2136 §3.4);
records of a class other than zclass/ANY/NONE fall through without effect
(the prescan already rejected them). -/
def dispatch_rrset (z : Zone) (zname : Name) (zclass : RRClass)
    (rrset : RRset) : Except PyErr (List DiffOp) :=
  if rrset.rrclass = zclass then do_update_add_rrs_to_rrset z rrset
  else if rrset.rrclass = RRClass.ANY then
    if rrset.rrtype = RRType.ANY then do_update_delete_name z zname rrset
    else do_update_delete_rrset z zname rrset
  else if rrset.rrclass = RRClass.NONE then
    do_update_delete_rrs_from_rrset z zname zclass rrset
  else .ok []

/-- The `__do_update` loop over the update section, collecting the diff
operations each record buffers. -/
def dispatch_all (z : Zone) (zname : Name) (zclass : RRClass) :
    List RRset → Except PyErr (List DiffOp)
  | [] => .ok []
  | rrset :: rest =>
    match dispatch_rrset z zname zclass rrset with
    | .error e => .error e
    | .ok o =>
      match dispatch_all z zname zclass rest with
      | .error e => .error e
      | .ok more => .ok (o ++ more)

/-- The data source a zone resolves to: its zone content, plus whether the
backend `commit()` succeeds (`commitOk = false` models a data-source error
raised during commit). -/
structure Datasource where
  zone : Zone
  commitOk : Bool
deriving DecidableEq, Repr

/-- Mirrors `__do_update`: prescan, then SOA finalization, then per-record
dispatch, then `diff.commit()`.  The commented-out `try/except` around
`commit()` is faithfully absent: a data-source error escapes as an
exception instead of becoming SERVFAIL. -/
def do_update (ds : Datasource) (zname : Name) (zclass : RRClass)
    (updates : List RRset) : Except PyErr (Rcode × Zone) :=
  match do_prescan zname zclass updates with
  | .error e => .error e
  | .ok (rc, added_soa) =>
    if rc ≠ Rcode.NOERROR then .ok (rc, ds.zone)
    else
      match update_soa ds.zone zname added_soa with
      | .error e => .error e
      | .ok soaOps =>
        match dispatch_all ds.zone zname zclass updates with
        | .error e => .error e
        | .ok ops =>
          if ds.commitOk then
            .ok (Rcode.NOERROR, applyDiff ds.zone (soaOps ++ ops))
          else .error .datasrcError

/-- Zone roles reported by `ZoneConfig.find_zone`. -/
inductive ZoneRole where
  | primary
  | secondary
  | notfound
deriving DecidableEq, Repr

/-- Modelled from the spec: `ZoneConfig` maps (name, class) to a role
(spec §6); missing entries report NOTFOUND. -/
structure ZoneConfig where
  entries : List (Name × RRClass × ZoneRole)
deriving DecidableEq, Repr

def findZoneRole : List (Name × RRClass × ZoneRole) → Name → RRClass →
    ZoneRole
  | [], _, _ => .notfound
  | (n, c, role) :: rest, zn, zc =>
    if n = zn ∧ c = zc then role else findZoneRole rest zn zc

def ZoneConfig.find_zone (cfg : ZoneConfig) (zn : Name) (zc : RRClass) :
    ZoneRole :=
  findZoneRole cfg.entries zn zc

/-- An update request message: zone, prerequisite and update sections. -/
structure Message where
  zoneSection : List RRset
  prereqs : List RRset
  updates : List RRset
deriving DecidableEq, Repr

/-- Mirrors `__get_update_zone`: exactly one zone record of type SOA, and
the zone must be served as a primary; failures raise `UpdateError` with
FORMERR / NOTIMP / NOTAUTH, modelled as `Except Rcode`. -/
def get_update_zone (msg : Message) (cfg : ZoneConfig) :
    Except Rcode (Name × RRClass) :=
  match msg.zoneSection with
  | [zrecord] =>
    if zrecord.rrtype ≠ RRType.SOA then .error Rcode.FORMERR
    else
      match cfg.find_zone zrecord.name zrecord.rrclass with
      | .primary => .ok (zrecord.name, zrecord.rrclass)
      | .secondary => .error Rcode.NOTIMP
      | .notfound => .error Rcode.NOTAUTH
  | _ => .error Rcode.FORMERR

/-- What `handle()` produces: the result code triple, the response rcode
set by `__make_response`, and the zone content after the request. -/
structure HandleResult where
  result : Nat
  zname : Option Name
  zclass : Option RRClass
  rcode : Rcode
  zone : Zone
deriving DecidableEq, Repr

/-- Mirrors `UpdateSession.handle()`: resolve the zone, check the
prerequisites, apply the update; `UpdateError` becomes an ERROR response
with its rcode, while other exceptions propagate to the caller. -/
def handle (msg : Message) (cfg : ZoneConfig) (ds : Datasource) :
    Except PyErr HandleResult :=
  match get_update_zone msg cfg with
  | .error rc => .ok ⟨UPDATE_ERROR, none, none, rc, ds.zone⟩
  | .ok (zname, zclass) =>
    let pr := check_prerequisites ds.zone zname zclass msg.prereqs
    if pr ≠ Rcode.NOERROR then
      .ok ⟨UPDATE_ERROR, some zname, some zclass, pr, ds.zone⟩
    else
      match do_update ds zname zclass msg.updates with
      | .error e => .error e
      | .ok (rc, z2) =>
        if rc ≠ Rcode.NOERROR then
          .ok ⟨UPDATE_ERROR, some zname, some zclass, rc, z2⟩
        else .ok ⟨UPDATE_SUCCESS, some zname, some zclass, Rcode.NOERROR, z2⟩

/-! ### Verification-side measures and spec-side definitions -/

/-- Number of occurrences of Rdata `x` in the stored RRset at `(n, t)`
(0 when no such RRset is stored). -/
def rdCount (z : Zone) (n : Name) (t : RRType) (x : Rdata) : Nat :=
  match zoneFind z n t with
  | some rs => rs.rdata.count x
  | none => 0

/-- How many copies of Rdata `x` at key `(n, t)` one buffered operation
deletes. -/
def opDelCount (n : Name) (t : RRType) (x : Rdata) : DiffOp → Nat
  | .del rr => if rr.name = n ∧ rr.rrtype = t then rr.rdata.count x else 0
  | .add _ => 0

/-- How many copies of Rdata `x` at key `(n, t)` a buffered diff deletes. -/
def delCount (d : List DiffOp) (n : Name) (t : RRType) (x : Rdata) : Nat :=
  (d.map (opDelCount n t x)).sum

/-- Keys (owner name, type) of the stored RRsets are pairwise distinct:
part of what it means for a list of RRsets to be a zone store. -/
def zoneKeysNodup (z : Zone) : Prop :=
  (z.map (fun rs => (rs.name, rs.rrtype))).Nodup

instance (z : Zone) : Decidable (zoneKeysNodup z) := by
  unfold zoneKeysNodup
  infer_instance

/-- One step of `soaCandidateSpec`: a zone-class SOA record with at least
one Rdata overwrites the candidate with its last Rdata as a one-Rdata
RRset; every other record leaves the candidate alone. -/
def soaCandidateStep (zclass : RRClass) (acc : Option RRset) (u : RRset) :
    Option RRset :=
  if u.rrclass = zclass ∧ u.rrtype = RRType.SOA then
    match u.rdata.getLast? with
    | some r => some (oneRR u r)
    | none => acc
  else acc

/-- Follows the spec's words (§4.4, §4.5 phase A): the candidate new SOA is
the last Rdata of the last zone-class SOA record of the update section,
materialized as a one-Rdata RRset; `none` when the update adds no SOA. -/
def soaCandidateSpec (zclass : RRClass) (updates : List RRset) :
    Option RRset :=
  updates.foldl (soaCandidateStep zclass) none

/-- The update records that reach the apex NS deleter helper: NONE-class NS
records owned by the apex. -/
def apexNoneNSCount (zname : Name) (updates : List RRset) : Nat :=
  (updates.filter (fun u =>
    decide (u.rrclass = RRClass.NONE ∧ u.name = zname ∧
            u.rrtype = RRType.NS))).length

/-! ### Concrete scenario inputs -/

/-- A minimal healthy zone: apex `[0]` with one SOA and the NS Rdata
`[1, 2]`. -/
def zoneA : Zone :=
  [⟨[0], RRClass.IN, RRType.SOA, 3600, [100]⟩,
   ⟨[0], RRClass.IN, RRType.NS, 3600, [1, 2]⟩]

/-- Configuration serving `[0]` (class IN) as a primary zone. -/
def cfgA : ZoneConfig := ⟨[([0], RRClass.IN, .primary)]⟩

/-- A well-formed zone section for `[0]`. -/
def zsecA : List RRset := [⟨[0], RRClass.IN, RRType.SOA, 0, []⟩]

/-- Update with two apex NONE-class NS records, each deleting a different
NS Rdata; each in isolation leaves one NS, together they delete both. -/
def msgTwoNoneNS : Message :=
  ⟨zsecA, [],
   [⟨[0], RRClass.NONE, RRType.NS, 0, [2]⟩,
    ⟨[0], RRClass.NONE, RRType.NS, 0, [1]⟩]⟩

/-- The committed zone after `msgTwoNoneNS`: the apex NS set is gone. -/
def zoneAfterTwoNoneNS : Zone :=
  [⟨[0], RRClass.IN, RRType.SOA, 3600, [100]⟩]

/-- Update adding an SOA record owned by the non-apex name `[0, 7]`. -/
def msgSubSOA : Message :=
  ⟨zsecA, [], [⟨[0, 7], RRClass.IN, RRType.SOA, 3600, [101]⟩]⟩

/-- The committed zone after `msgSubSOA`: the SOA moved off the apex. -/
def zoneAfterSubSOA : Zone :=
  [⟨[0], RRClass.IN, RRType.NS, 3600, [1, 2]⟩,
   ⟨[0, 7], RRClass.IN, RRType.SOA, 3600, [101]⟩]

/-- An empty (yet well-formed) update request for zone `[0]`. -/
def msgEmptyUpdate : Message := ⟨zsecA, [], []⟩

/-- Update adding an A record at `[0, 5]`, a name with no stored RRset. -/
def msgAddNewName : Message :=
  ⟨zsecA, [], [⟨[0, 5], RRClass.IN, RRType.A, 300, [7]⟩]⟩

/-- Update adding an A record at the CNAME-owning name `[0, 3]`. -/
def msgAddAAtCname : Message :=
  ⟨zsecA, [], [⟨[0, 3], RRClass.IN, RRType.A, 300, [7]⟩]⟩

/-- The committed zone after `msgAddAAtCname`: the A record was added
beside the CNAME. -/
def zoneAfterAAtCname : Zone :=
  [⟨[0], RRClass.IN, RRType.NS, 3600, [1]⟩,
   ⟨[0, 3], RRClass.IN, RRType.CNAME, 300, [50]⟩,
   ⟨[0], RRClass.IN, RRType.SOA, 3600, [100]⟩,
   ⟨[0, 3], RRClass.IN, RRType.A, 300, [7]⟩]

/-- Variant of `zoneCname` with a single apex NS Rdata (used so the
committed result above is small). -/
def zoneCname1 : Zone :=
  [⟨[0], RRClass.IN, RRType.SOA, 3600, [100]⟩,
   ⟨[0], RRClass.IN, RRType.NS, 3600, [1]⟩,
   ⟨[0, 3], RRClass.IN, RRType.CNAME, 300, [50]⟩]

/-- Zone with an A RRset at `[0, 3]` (the spec's scenario S5 layout). -/
def zoneWithA : Zone :=
  [⟨[0], RRClass.IN, RRType.SOA, 3600, [100]⟩,
   ⟨[0], RRClass.IN, RRType.NS, 3600, [1]⟩,
   ⟨[0, 3], RRClass.IN, RRType.A, 300, [7]⟩]

/-- Scenario S5: update adding a CNAME at `[0, 3]` where an A RRset
exists. -/
def msgAddCnameAtA : Message :=
  ⟨zsecA, [], [⟨[0, 3], RRClass.IN, RRType.CNAME, 300, [50]⟩]⟩

/-- Update with a single apex NONE-class NS record deleting Rdata `1`. -/
def msgOneNoneNS : Message :=
  ⟨zsecA, [], [⟨[0], RRClass.NONE, RRType.NS, 0, [1]⟩]⟩

/-- The committed zone after the empty update `msgEmptyUpdate` on `zoneA`:
the apex SOA is deleted and re-added, which moves it behind the NS set. -/
def zoneAfterEmptyUpdate : Zone :=
  [⟨[0], RRClass.IN, RRType.NS, 3600, [1, 2]⟩,
   ⟨[0], RRClass.IN, RRType.SOA, 3600, [100]⟩]

/-- The committed zone after `msgOneNoneNS` on `zoneA`: one apex NS Rdata
is deleted, one survives. -/
def zoneAfterOneNoneNS : Zone :=
  [⟨[0], RRClass.IN, RRType.NS, 3600, [2]⟩,
   ⟨[0], RRClass.IN, RRType.SOA, 3600, [100]⟩]

/-! ## Basic lemmas about the zone store and the finder -/

theorem zoneFind_some_keys {z : Zone} {n : Name} {t : RRType} {rs : RRset}
    (h : zoneFind z n t = some rs) : rs.name = n ∧ rs.rrtype = t := by
  induction z with
  | nil => exact absurd h (by simp [zoneFind])
  | cons hd tl ih =>
    rw [zoneFind] at h
    split at h
    next hm => injection h with h2; exact h2 ▸ hm
    next => exact ih h

theorem finderFind_of_zoneFind {z : Zone} {n : Name} {t : RRType}
    {rs : RRset} (h : zoneFind z n t = some rs) :
    finderFind z n t = ⟨.success, some rs⟩ := by
  rw [finderFind, h]

theorem finderFind_status_of_none {z : Zone} {n : Name} {t : RRType}
    (h : zoneFind z n t = none) : (finderFind z n t).status ≠ .success := by
  simp only [finderFind, h]
  split
  · split
    · simp
    · split <;> simp
  · split <;> simp

theorem finderFind_success {z : Zone} {n : Name} {t : RRType}
    (h : (finderFind z n t).status = .success) :
    ∃ rs, zoneFind z n t = some rs ∧ finderFind z n t = ⟨.success, some rs⟩ := by
  cases hz : zoneFind z n t with
  | some rs => exact ⟨rs, rfl, finderFind_of_zoneFind hz⟩
  | none => exact absurd h (finderFind_status_of_none hz)

/-! ## Control-flow lemmas for `handle` and `do_update` -/

theorem handle_zone_err {msg : Message} {cfg : ZoneConfig} {ds : Datasource}
    {rc : Rcode} (h : get_update_zone msg cfg = .error rc) :
    handle msg cfg ds = .ok ⟨UPDATE_ERROR, none, none, rc, ds.zone⟩ := by
  unfold handle
  rw [h]

theorem handle_prereq_fail {msg : Message} {cfg : ZoneConfig}
    {ds : Datasource} {zname : Name} {zclass : RRClass}
    (hz : get_update_zone msg cfg = .ok (zname, zclass))
    (hpr : check_prerequisites ds.zone zname zclass msg.prereqs ≠
      Rcode.NOERROR) :
    handle msg cfg ds = .ok ⟨UPDATE_ERROR, some zname, some zclass,
      check_prerequisites ds.zone zname zclass msg.prereqs, ds.zone⟩ := by
  unfold handle
  rw [hz]
  simp only [if_pos hpr]

theorem handle_update_err {msg : Message} {cfg : ZoneConfig}
    {ds : Datasource} {zname : Name} {zclass : RRClass} {rc : Rcode}
    {z2 : Zone}
    (hz : get_update_zone msg cfg = .ok (zname, zclass))
    (hpr : check_prerequisites ds.zone zname zclass msg.prereqs =
      Rcode.NOERROR)
    (hdo : do_update ds zname zclass msg.updates = .ok (rc, z2))
    (hrc : rc ≠ Rcode.NOERROR) :
    handle msg cfg ds = .ok ⟨UPDATE_ERROR, some zname, some zclass, rc, z2⟩ := by
  unfold handle
  rw [hz]
  simp only [hpr, ne_eq, not_true_eq_false, if_false, hdo, if_pos hrc]

theorem handle_update_ok {msg : Message} {cfg : ZoneConfig}
    {ds : Datasource} {zname : Name} {zclass : RRClass} {z2 : Zone}
    (hz : get_update_zone msg cfg = .ok (zname, zclass))
    (hpr : check_prerequisites ds.zone zname zclass msg.prereqs =
      Rcode.NOERROR)
    (hdo : do_update ds zname zclass msg.updates = .ok (Rcode.NOERROR, z2)) :
    handle msg cfg ds =
      .ok ⟨UPDATE_SUCCESS, some zname, some zclass, Rcode.NOERROR, z2⟩ := by
  unfold handle
  rw [hz]
  simp only [hpr, ne_eq, not_true_eq_false, if_false, hdo]

theorem handle_update_exn {msg : Message} {cfg : ZoneConfig}
    {ds : Datasource} {zname : Name} {zclass : RRClass} {e : PyErr}
    (hz : get_update_zone msg cfg = .ok (zname, zclass))
    (hpr : check_prerequisites ds.zone zname zclass msg.prereqs =
      Rcode.NOERROR)
    (hdo : do_update ds zname zclass msg.updates = .error e) :
    handle msg cfg ds = .error e := by
  unfold handle
  rw [hz]
  simp only [hpr, ne_eq, not_true_eq_false, if_false, hdo]

theorem handle_success_inv {msg : Message} {cfg : ZoneConfig}
    {ds : Datasource} {zname : Name} {zclass : RRClass} {res : HandleResult}
    (hz : get_update_zone msg cfg = .ok (zname, zclass))
    (hrun : handle msg cfg ds = .ok res)
    (hres : res.result = UPDATE_SUCCESS) :
    check_prerequisites ds.zone zname zclass msg.prereqs = Rcode.NOERROR ∧
    do_update ds zname zclass msg.updates = .ok (Rcode.NOERROR, res.zone) := by
  by_cases hpr :
      check_prerequisites ds.zone zname zclass msg.prereqs = Rcode.NOERROR
  · cases hdo : do_update ds zname zclass msg.updates with
    | error e =>
      rw [handle_update_exn hz hpr hdo] at hrun
      exact absurd hrun (by simp)
    | ok p =>
      obtain ⟨rc, z2⟩ := p
      by_cases hrc : rc = Rcode.NOERROR
      · subst hrc
        rw [handle_update_ok hz hpr hdo] at hrun
        injection hrun with h
        subst h
        exact ⟨hpr, rfl⟩
      · rw [handle_update_err hz hpr hdo hrc] at hrun
        injection hrun with h
        subst h
        simp [UPDATE_ERROR, UPDATE_SUCCESS] at hres
  · rw [handle_prereq_fail hz hpr] at hrun
    injection hrun with h
    subst h
    simp [UPDATE_ERROR, UPDATE_SUCCESS] at hres

theorem do_update_ok_inv {ds : Datasource} {zname : Name} {zclass : RRClass}
    {us : List RRset} {z2 : Zone}
    (h : do_update ds zname zclass us = .ok (Rcode.NOERROR, z2)) :
    ∃ added soaOps ops,
      do_prescan zname zclass us = .ok (Rcode.NOERROR, added) ∧
      update_soa ds.zone zname added = .ok soaOps ∧
      dispatch_all ds.zone zname zclass us = .ok ops ∧
      ds.commitOk = true ∧
      z2 = applyDiff ds.zone (soaOps ++ ops) := by
  unfold do_update at h
  split at h
  next => exact absurd h (by simp)
  next rc added heq =>
    split at h
    next hrc =>
      injection h with h2
      injection h2 with h3 h4
      exact absurd h3 hrc
    next hrc =>
      have hrc2 : rc = Rcode.NOERROR := not_ne_iff.mp hrc
      subst hrc2
      split at h
      next => exact absurd h (by simp)
      next soaOps heq2 =>
        split at h
        next => exact absurd h (by simp)
        next ops heq3 =>
          split at h
          next hc =>
            injection h with h2
            injection h2 with h3 h4
            exact ⟨added, soaOps, ops, heq, heq2, heq3, hc, h4.symm⟩
          next hc => exact absurd h (by simp)

/-! ## C3: malformed zone section yields FORMERR -/

theorem get_update_zone_formerr {msg : Message} {cfg : ZoneConfig}
    (h : msg.zoneSection.length ≠ 1 ∨
      ∃ q, msg.zoneSection = [q] ∧ q.rrtype ≠ RRType.SOA) :
    get_update_zone msg cfg = .error Rcode.FORMERR := by
  unfold get_update_zone
  cases hzs : msg.zoneSection with
  | nil => rfl
  | cons q rest =>
    cases rest with
    | nil =>
      rcases h with h1 | ⟨q2, hq2, ht⟩
      · rw [hzs] at h1; exact absurd rfl h1
      · rw [hzs] at hq2
        injection hq2 with hq2a
        subst hq2a
        simp only [if_pos ht]
    | cons q2 rest2 => rfl

/-- C3: a request whose zone section does not hold exactly one record, or
whose single zone record is not of type SOA, makes `handle()` return the
ERROR outcome with response rcode FORMERR (and `(None, None)` for the zone
name and class, leaving the zone untouched). -/
theorem c3_malformed_zone_section (msg : Message) (cfg : ZoneConfig)
    (ds : Datasource)
    (h : msg.zoneSection.length ≠ 1 ∨
      ∃ q, msg.zoneSection = [q] ∧ q.rrtype ≠ RRType.SOA) :
    handle msg cfg ds = .ok ⟨UPDATE_ERROR, none, none, Rcode.FORMERR, ds.zone⟩ :=
  handle_zone_err (get_update_zone_formerr h)

theorem c3_witness :
    ((⟨[], [], []⟩ : Message).zoneSection.length ≠ 1 ∧
      handle ⟨[], [], []⟩ cfgA ⟨zoneA, true⟩ =
        .ok ⟨UPDATE_ERROR, none, none, Rcode.FORMERR, zoneA⟩) ∧
    ((⟨[⟨[0], RRClass.IN, RRType.NS, 0, []⟩], [], []⟩ : Message).zoneSection =
        [⟨[0], RRClass.IN, RRType.NS, 0, []⟩] ∧
      handle ⟨[⟨[0], RRClass.IN, RRType.NS, 0, []⟩], [], []⟩ cfgA
          ⟨zoneA, true⟩ =
        .ok ⟨UPDATE_ERROR, none, none, Rcode.FORMERR, zoneA⟩) :=
  ⟨⟨by decide,
    c3_malformed_zone_section _ _ _ (Or.inl (by decide))⟩,
   ⟨rfl,
    c3_malformed_zone_section _ _ _
      (Or.inr ⟨⟨[0], RRClass.IN, RRType.NS, 0, []⟩, rfl, by decide⟩)⟩⟩

/-! ## C4: secondary zones yield NOTIMP, unknown zones NOTAUTH -/

/-- C4: with a well-formed zone section, a zone whose configured role is
SECONDARY makes `handle()` return `(ERROR, None, None)` with rcode NOTIMP,
and an unconfigured zone makes it return `(ERROR, None, None)` with rcode
NOTAUTH; in both cases the zone store is returned unchanged, since no
prerequisite check, prescan, diff or commit has run. -/
theorem c4_secondary_notimp_notfound_notauth (msg : Message)
    (cfg : ZoneConfig) (ds : Datasource) (q : RRset)
    (hq : msg.zoneSection = [q]) (hsoa : q.rrtype = RRType.SOA) :
    (cfg.find_zone q.name q.rrclass = .secondary →
      handle msg cfg ds =
        .ok ⟨UPDATE_ERROR, none, none, Rcode.NOTIMP, ds.zone⟩) ∧
    (cfg.find_zone q.name q.rrclass = .notfound →
      handle msg cfg ds =
        .ok ⟨UPDATE_ERROR, none, none, Rcode.NOTAUTH, ds.zone⟩) := by
  constructor <;> intro hrole <;>
    refine handle_zone_err ?_ <;>
    unfold get_update_zone <;> rw [hq] <;>
    simp [hsoa, hrole]

theorem c4_witness :
    ((msgEmptyUpdate.zoneSection = [⟨[0], RRClass.IN, RRType.SOA, 0, []⟩]) ∧
      (ZoneConfig.find_zone ⟨[([0], RRClass.IN, ZoneRole.secondary)]⟩ [0]
          RRClass.IN = .secondary) ∧
      handle msgEmptyUpdate ⟨[([0], RRClass.IN, ZoneRole.secondary)]⟩
          ⟨zoneA, true⟩ =
        .ok ⟨UPDATE_ERROR, none, none, Rcode.NOTIMP, zoneA⟩) ∧
    ((ZoneConfig.find_zone ⟨[]⟩ [0] RRClass.IN = .notfound) ∧
      handle msgEmptyUpdate ⟨[]⟩ ⟨zoneA, true⟩ =
        .ok ⟨UPDATE_ERROR, none, none, Rcode.NOTAUTH, zoneA⟩) :=
  ⟨⟨rfl, rfl,
    (c4_secondary_notimp_notfound_notauth msgEmptyUpdate
        ⟨[([0], RRClass.IN, ZoneRole.secondary)]⟩ ⟨zoneA, true⟩
        ⟨[0], RRClass.IN, RRType.SOA, 0, []⟩ rfl rfl).1 rfl⟩,
   ⟨rfl,
    (c4_secondary_notimp_notfound_notauth msgEmptyUpdate ⟨[]⟩
        ⟨zoneA, true⟩ ⟨[0], RRClass.IN, RRType.SOA, 0, []⟩ rfl rfl).2 rfl⟩⟩

/-! ## C10: the result triples of `handle()` -/

/-- C10: when the zone section resolves, a failing prerequisite or update
phase makes `handle()` return `(ERROR, zname, zclass)` with the resolved
zone name and class and the failing rcode; zone-resolution failures return
`(ERROR, None, None)`; only full success returns `(SUCCESS, zname,
zclass)` with rcode NOERROR. -/
theorem c10_handle_result_triples (msg : Message) (cfg : ZoneConfig)
    (ds : Datasource) :
    (∀ rc, get_update_zone msg cfg = .error rc →
      handle msg cfg ds = .ok ⟨UPDATE_ERROR, none, none, rc, ds.zone⟩) ∧
    (∀ zname zclass, get_update_zone msg cfg = .ok (zname, zclass) →
      (check_prerequisites ds.zone zname zclass msg.prereqs ≠
          Rcode.NOERROR →
        handle msg cfg ds = .ok ⟨UPDATE_ERROR, some zname, some zclass,
          check_prerequisites ds.zone zname zclass msg.prereqs, ds.zone⟩) ∧
      (∀ rc z2,
        check_prerequisites ds.zone zname zclass msg.prereqs =
          Rcode.NOERROR →
        do_update ds zname zclass msg.updates = .ok (rc, z2) →
        rc ≠ Rcode.NOERROR →
        handle msg cfg ds =
          .ok ⟨UPDATE_ERROR, some zname, some zclass, rc, z2⟩) ∧
      (∀ z2,
        check_prerequisites ds.zone zname zclass msg.prereqs =
          Rcode.NOERROR →
        do_update ds zname zclass msg.updates = .ok (Rcode.NOERROR, z2) →
        handle msg cfg ds =
          .ok ⟨UPDATE_SUCCESS, some zname, some zclass, Rcode.NOERROR,
            z2⟩)) :=
  ⟨fun _ h => handle_zone_err h,
   fun _ _ hz =>
    ⟨fun hpr => handle_prereq_fail hz hpr,
     fun _ _ hpr hdo hrc => handle_update_err hz hpr hdo hrc,
     fun _ hpr hdo => handle_update_ok hz hpr hdo⟩⟩

theorem c10_witness :
    (get_update_zone msgEmptyUpdate cfgA = .ok ([0], RRClass.IN)) ∧
    (check_prerequisites zoneA [0] RRClass.IN msgEmptyUpdate.prereqs =
      Rcode.NOERROR) ∧
    (do_update ⟨zoneA, true⟩ [0] RRClass.IN msgEmptyUpdate.updates =
      .ok (Rcode.NOERROR, zoneAfterEmptyUpdate)) ∧
    handle msgEmptyUpdate cfgA ⟨zoneA, true⟩ =
      .ok ⟨UPDATE_SUCCESS, some [0], some RRClass.IN, Rcode.NOERROR,
        zoneAfterEmptyUpdate⟩ :=
  ⟨rfl, rfl, rfl,
   ((c10_handle_result_triples msgEmptyUpdate cfgA ⟨zoneA, true⟩).2 [0]
      RRClass.IN rfl).2.2 zoneAfterEmptyUpdate rfl rfl⟩

/-! ## C2: commit failure is not turned into SERVFAIL (code bug) -/

/-- C2 (code-bug evaluation): a failing backend commit does not produce a
SERVFAIL response — the `try/except` around `diff.commit()` is commented
out in the source, so `__do_update` raises the data-source error and
`handle()` (which only catches `UpdateError`) propagates it to the caller
instead of building any response. -/
theorem c2_commit_failure_propagates :
    do_update ⟨zoneA, false⟩ [0] RRClass.IN [] = .error PyErr.datasrcError ∧
    handle msgEmptyUpdate cfgA ⟨zoneA, false⟩ = .error PyErr.datasrcError ∧
    ∀ res : HandleResult,
      handle msgEmptyUpdate cfgA ⟨zoneA, false⟩ ≠ .ok res :=
  ⟨rfl, rfl, fun _ h => Except.noConfusion (rfl.symm.trans h)⟩

/-! ## C9: the add dispatch faults on an absent existing RRset (code bug) -/

/-- C9 (code-bug evaluation): adding an A record at a name with no stored
RRset makes the finder report a non-SUCCESS status with no RRset;
`__do_update_add_single_rr` then dereferences the absent RRset
(`existing_rrset.get_rdata()` on `None`), so the add dispatch raises
AttributeError instead of completing and the whole update faults. -/
theorem c9_add_dispatch_faults_on_absent_rrset :
    finderFind zoneA [0, 5] RRType.A = ⟨.nxdomain, none⟩ ∧
    do_update_add_rrs_to_rrset zoneA
        ⟨[0, 5], RRClass.IN, RRType.A, 300, [7]⟩ =
      .error PyErr.attributeError ∧
    handle msgAddNewName cfgA ⟨zoneA, true⟩ = .error PyErr.attributeError :=
  ⟨rfl, rfl, rfl⟩

/-! ## C7: CNAME coherence is not enforced (code bug) -/

/-- C7 (code-bug evaluation): the CNAME coherence checks sit under
`result == SUCCESS`, which never holds in the mismatch cases.  Adding a
non-CNAME record at a CNAME-owning name sees the finder's CNAME status,
falls through the checks, and commits the new record beside the CNAME
(outcome SUCCESS) instead of skipping it; adding a CNAME where an A RRset
exists (spec scenario S5) sees NXRRSET with no RRset and faults with
AttributeError instead of skipping.  Only the CNAME-over-CNAME
replacement behaves as specified. -/
theorem c7_cname_coherence_not_enforced :
    handle msgAddAAtCname cfgA ⟨zoneCname1, true⟩ =
      .ok ⟨UPDATE_SUCCESS, some [0], some RRClass.IN, Rcode.NOERROR,
        zoneAfterAAtCname⟩ ∧
    zoneFind zoneCname1 [0, 3] RRType.A = none ∧
    zoneFind zoneAfterAAtCname [0, 3] RRType.A =
      some ⟨[0, 3], RRClass.IN, RRType.A, 300, [7]⟩ ∧
    zoneFind zoneAfterAAtCname [0, 3] RRType.CNAME =
      some ⟨[0, 3], RRClass.IN, RRType.CNAME, 300, [50]⟩ ∧
    handle msgAddCnameAtA cfgA ⟨zoneWithA, true⟩ =
      .error PyErr.attributeError :=
  ⟨rfl, rfl, rfl, rfl, rfl⟩

/-! ## C6: the value prerequisite is exact multiset comparison -/

theorem rdata_multiset_match_iff (a b : List Rdata) :
    rdata_multiset_match a b = true ↔ a.Perm b := by
  induction a generalizing b with
  | nil =>
    simp only [rdata_multiset_match, List.isEmpty_iff]
    constructor
    · intro h; rw [h]
    · intro h; exact h.symm.eq_nil
  | cons r rest ih =>
    simp only [rdata_multiset_match]
    by_cases hm : r ∈ b
    · rw [if_pos hm, ih]
      constructor
      · intro h; exact List.cons_perm_iff_perm_erase.mpr ⟨hm, h⟩
      · intro h; exact (List.cons_perm_iff_perm_erase.mp h).2
    · rw [if_neg hm]
      constructor
      · intro h; exact absurd h (by simp)
      · intro h; exact absurd (h.subset (List.mem_cons_self r rest)) hm

/-- C6: for a zone-class, TTL-0 prerequisite, the "RRset exists with value"
check succeeds exactly when an RRset is stored at the prerequisite's
(name, type) and its Rdata sequence is a permutation of the
prerequisite's (multiset equality); the outcome is invariant under any
permutation of the prerequisite's Rdata list, and a record failing the
check makes `__check_prerequisites` return NXRRSET. -/
theorem c6_value_prereq_is_multiset (z : Zone) (rs : RRset) :
    (prereq_rrset_exists_value z rs = true ↔
      ∃ found, zoneFind z rs.name rs.rrtype = some found ∧
        rs.rdata.Perm found.rdata) ∧
    (∀ l : List Rdata, l.Perm rs.rdata →
      prereq_rrset_exists_value z
        ⟨rs.name, rs.rrclass, rs.rrtype, rs.ttl, l⟩ =
      prereq_rrset_exists_value z rs) ∧
    (∀ zname zclass, check_in_zone rs zname = true → rs.rrclass = zclass →
      zclass ≠ RRClass.ANY → zclass ≠ RRClass.NONE → rs.ttl = 0 →
      check_prerequisites z zname zclass [rs] =
        (if prereq_rrset_exists_value z rs then Rcode.NOERROR
         else Rcode.NXRRSET)) := by
  have key : ∀ rr : RRset, prereq_rrset_exists_value z rr = true ↔
      ∃ found, zoneFind z rr.name rr.rrtype = some found ∧
        rr.rdata.Perm found.rdata := by
    intro rr
    cases hz : zoneFind z rr.name rr.rrtype with
    | some found =>
      unfold prereq_rrset_exists_value
      rw [finderFind_of_zoneFind hz]
      obtain ⟨hn, ht⟩ := zoneFind_some_keys hz
      simp only [hn.symm, ht.symm, and_self, if_true]
      rw [rdata_multiset_match_iff]
      constructor
      · intro h; exact ⟨found, rfl, h⟩
      · rintro ⟨found2, hf2, hp⟩
        injection hf2 with hf2; exact hf2 ▸ hp
    | none =>
      have hfalse : prereq_rrset_exists_value z rr = false := by
        have hs := finderFind_status_of_none hz
        unfold prereq_rrset_exists_value
        cases hf : finderFind z rr.name rr.rrtype with
        | mk st o =>
          cases st with
          | success => rw [hf] at hs; exact absurd rfl hs
          | nxdomain => cases o <;> rfl
          | nxrrset => cases o <;> rfl
          | cnameFound => cases o <;> rfl
      rw [hfalse]
      simp [hz]
  refine ⟨key rs, ?_, ?_⟩
  · intro l hl
    have h1 := key rs
    have h2 := key ⟨rs.name, rs.rrclass, rs.rrtype, rs.ttl, l⟩
    simp only at h2
    by_cases hval : prereq_rrset_exists_value z rs = true
    · obtain ⟨found, hf, hp⟩ := h1.mp hval
      rw [hval, h2.mpr ⟨found, hf, hl.trans hp⟩]
    · have hval2 : ¬ prereq_rrset_exists_value z
          ⟨rs.name, rs.rrclass, rs.rrtype, rs.ttl, l⟩ = true := by
        intro hc
        obtain ⟨found, hf, hp⟩ := h2.mp hc
        exact hval (h1.mpr ⟨found, hf, hl.symm.trans hp⟩)
      rw [Bool.not_eq_true] at hval2 hval
      rw [hval2, hval]
  · intro zname zclass hin hcls hany hnone httl
    unfold check_prerequisites
    cases hv : prereq_rrset_exists_value z rs <;>
      simp [hin, hcls, hany, hnone, httl, hv, check_prerequisites]

theorem c6_witness :
    ((⟨[0, 3], RRClass.IN, RRType.A, 0, [8, 7]⟩ : RRset).rdata.Perm [7, 8] ∧
      prereq_rrset_exists_value
        (zoneA ++ [⟨[0, 3], RRClass.IN, RRType.A, 300, [7, 8]⟩])
        ⟨[0, 3], RRClass.IN, RRType.A, 0, [8, 7]⟩ = true) ∧
    check_prerequisites
        (zoneA ++ [⟨[0, 3], RRClass.IN, RRType.A, 300, [7, 8]⟩]) [0]
        RRClass.IN [⟨[0, 3], RRClass.IN, RRType.A, 0, [8, 7, 7]⟩] =
      Rcode.NXRRSET :=
  ⟨⟨by decide,
    ((c6_value_prereq_is_multiset
        (zoneA ++ [⟨[0, 3], RRClass.IN, RRType.A, 300, [7, 8]⟩])
        ⟨[0, 3], RRClass.IN, RRType.A, 0, [8, 7]⟩).1).mpr
      ⟨⟨[0, 3], RRClass.IN, RRType.A, 300, [7, 8]⟩, by decide, by decide⟩⟩,
   ((c6_value_prereq_is_multiset
        (zoneA ++ [⟨[0, 3], RRClass.IN, RRType.A, 300, [7, 8]⟩])
        ⟨[0, 3], RRClass.IN, RRType.A, 0, [8, 7, 7]⟩).2.2 [0] RRClass.IN
      (by decide) rfl (by decide) (by decide) rfl).trans (by decide)⟩

/-! ## C5: SOA finalization -/

theorem capture_foldl_eq (rs : RRset) :
    ∀ (l : List Rdata) (acc : Option RRset),
      l.foldl (fun _ r => some (oneRR rs r)) acc =
        (match l.getLast? with
         | some r => some (oneRR rs r)
         | none => acc)
  | [], _ => rfl
  | x :: xs, acc => by
    rw [List.foldl_cons, capture_foldl_eq rs xs (some (oneRR rs x))]
    cases xs with
    | nil => rfl
    | cons y ys =>
      rw [List.getLast?_cons_cons,
        List.getLast?_eq_getLast_of_ne_nil (List.cons_ne_nil y ys)]

theorem do_prescan_loop_acc (zname : Name) (zclass : RRClass) :
    ∀ (us : List RRset) (acc acc' : Option RRset),
      do_prescan_loop zname zclass us acc = .ok (Rcode.NOERROR, acc') →
      acc' = us.foldl (soaCandidateStep zclass) acc := by
  intro us
  induction us with
  | nil =>
    intro acc acc' h
    injection h with h1
    injection h1 with _ hb
    exact hb.symm
  | cons u rest ih =>
    intro acc acc' h
    rw [do_prescan_loop] at h
    rw [List.foldl_cons]
    split at h
    · simp [Rcode.NOTZONE, Rcode.NOERROR] at h
    · split at h
      next hcls =>
        split at h
        next hcode => simp [Rcode.FORMERR, Rcode.NOERROR] at h
        next hcode =>
          split at h
          next hsoa =>
            split at h
            next e heq => exact absurd h (by simp)
            next acc2 heq =>
              rw [rrset_as_rrs_capture] at heq
              split at heq
              next => exact absurd heq (by simp)
              next hne =>
                injection heq with heq2
                rw [ih acc2 acc' h, ← heq2, capture_foldl_eq]
                rw [soaCandidateStep, if_pos ⟨hcls, hsoa⟩]
          next hsoa =>
            rw [ih acc acc' h, soaCandidateStep,
              if_neg (fun hc => hsoa hc.2)]
      next hcls =>
        have hstep : soaCandidateStep zclass acc u = acc := by
          rw [soaCandidateStep, if_neg (fun hc => hcls hc.1)]
        split at h
        next =>
          split at h
          next => simp [Rcode.FORMERR, Rcode.NOERROR] at h
          next =>
            split at h
            next => simp [Rcode.FORMERR, Rcode.NOERROR] at h
            next =>
              split at h
              next => simp [Rcode.FORMERR, Rcode.NOERROR] at h
              next => rw [ih acc acc' h, hstep]
        next =>
          split at h
          next =>
            split at h
            next => simp [Rcode.FORMERR, Rcode.NOERROR] at h
            next =>
              split at h
              next => simp [Rcode.FORMERR, Rcode.NOERROR] at h
              next => rw [ih acc acc' h, hstep]
          next => simp [Rcode.FORMERR, Rcode.NOERROR] at h

/-- C5: for an update reaching the apply phase (prescan passed), the
captured candidate SOA is exactly the last Rdata of the last zone-class
SOA record as a one-Rdata RRset; SOA finalization emits exactly
delete(old apex SOA) then add(new SOA), where the new SOA is the
candidate when one was captured and the old SOA otherwise; and these two
operations head the committed diff, before any per-record dispatch. -/
theorem c5_soa_finalization (ds : Datasource) (zname : Name)
    (zclass : RRClass) (updates : List RRset) (added : Option RRset)
    (old : RRset)
    (h1 : do_prescan zname zclass updates = .ok (Rcode.NOERROR, added))
    (h2 : zoneFind ds.zone zname RRType.SOA = some old) :
    added = soaCandidateSpec zclass updates ∧
    update_soa ds.zone zname added =
      .ok [DiffOp.del old, DiffOp.add (added.getD old)] ∧
    (∀ ops, dispatch_all ds.zone zname zclass updates = .ok ops →
      ds.commitOk = true →
      do_update ds zname zclass updates =
        .ok (Rcode.NOERROR,
          applyDiff ds.zone
            ([DiffOp.del old, DiffOp.add (added.getD old)] ++ ops))) := by
  have hsoa : update_soa ds.zone zname added =
      .ok [DiffOp.del old, DiffOp.add (added.getD old)] := by
    unfold update_soa
    rw [finderFind_of_zoneFind h2]
  refine ⟨do_prescan_loop_acc zname zclass updates none added h1, hsoa,
    fun ops hops hc => ?_⟩
  unfold do_update
  rw [h1]
  simp only [ne_eq, not_true_eq_false, if_false, hsoa, hops, hc, if_true]

theorem c5_witness :
    (do_prescan [0] RRClass.IN
        [⟨[0], RRClass.IN, RRType.SOA, 3600, [123]⟩] =
      .ok (Rcode.NOERROR,
        some ⟨[0], RRClass.IN, RRType.SOA, 3600, [123]⟩)) ∧
    (zoneFind zoneA [0] RRType.SOA =
      some ⟨[0], RRClass.IN, RRType.SOA, 3600, [100]⟩) ∧
    some ⟨[0], RRClass.IN, RRType.SOA, 3600, [123]⟩ =
      soaCandidateSpec RRClass.IN
        [⟨[0], RRClass.IN, RRType.SOA, 3600, [123]⟩] ∧
    update_soa zoneA [0]
        (some ⟨[0], RRClass.IN, RRType.SOA, 3600, [123]⟩) =
      .ok [DiffOp.del ⟨[0], RRClass.IN, RRType.SOA, 3600, [100]⟩,
           DiffOp.add ⟨[0], RRClass.IN, RRType.SOA, 3600, [123]⟩] :=
  ⟨rfl, rfl,
   (c5_soa_finalization ⟨zoneA, true⟩ [0] RRClass.IN
      [⟨[0], RRClass.IN, RRType.SOA, 3600, [123]⟩]
      (some ⟨[0], RRClass.IN, RRType.SOA, 3600, [123]⟩)
      ⟨[0], RRClass.IN, RRType.SOA, 3600, [100]⟩ rfl rfl).1,
   (c5_soa_finalization ⟨zoneA, true⟩ [0] RRClass.IN
      [⟨[0], RRClass.IN, RRType.SOA, 3600, [123]⟩]
      (some ⟨[0], RRClass.IN, RRType.SOA, 3600, [123]⟩)
      ⟨[0], RRClass.IN, RRType.SOA, 3600, [100]⟩ rfl rfl).2.1⟩

/-! ## Lemmas about committing diff operations -/

theorem applyDiff_append (z : Zone) (a b : List DiffOp) :
    applyDiff z (a ++ b) = applyDiff (applyDiff z a) b :=
  List.foldl_append applyOp z a b

theorem mem_insertRd_self (l : List Rdata) (r : Rdata) : r ∈ insertRd l r := by
  unfold insertRd
  split
  · assumption
  · simp

theorem insertRd_insertRd (l : List Rdata) (r : Rdata) :
    insertRd (insertRd l r) r = insertRd l r := by
  conv_lhs => rw [insertRd]
  rw [if_pos (mem_insertRd_self l r)]

theorem eraseAll_self : ∀ l : List Rdata, eraseAll l l = []
  | [] => rfl
  | x :: xs => by
    show eraseAll ((x :: xs).erase x) xs = []
    rw [List.erase_cons_head]
    exact eraseAll_self xs

theorem eraseAll_of_disjoint :
    ∀ {rem l : List Rdata}, (∀ x ∈ rem, x ∉ l) → eraseAll l rem = l
  | [], _, _ => rfl
  | y :: ys, l, h => by
    show eraseAll (l.erase y) ys = l
    rw [List.erase_of_not_mem (h y (List.mem_cons_self y ys))]
    exact eraseAll_of_disjoint (fun x hx => h x (List.mem_cons_of_mem y hx))

theorem applyAdd_of_find_none {rr : RRset} :
    ∀ {z : Zone}, zoneFind z rr.name rr.rrtype = none →
      applyAdd rr z = z ++ [rr] := by
  intro z
  induction z with
  | nil => intro _; rfl
  | cons rs tl ih =>
    intro h
    rw [zoneFind] at h
    split at h
    next => exact absurd h (by simp)
    next hm =>
      rw [applyAdd, if_neg hm, ih h]
      rfl

theorem applyDel_of_find_none {rr : RRset} :
    ∀ {z : Zone}, zoneFind z rr.name rr.rrtype = none → applyDel rr z = z := by
  intro z
  induction z with
  | nil => intro _; rfl
  | cons rs tl ih =>
    intro h
    rw [zoneFind] at h
    split at h
    next => exact absurd h (by simp)
    next hm => rw [applyDel, if_neg hm, ih h]

theorem zoneFind_append (z1 z2 : Zone) (n : Name) (t : RRType) :
    zoneFind (z1 ++ z2) n t =
      (match zoneFind z1 n t with
       | some rs => some rs
       | none => zoneFind z2 n t) := by
  induction z1 with
  | nil => rfl
  | cons rs tl ih =>
    rw [List.cons_append, zoneFind, zoneFind]
    split
    · rfl
    · exact ih

theorem zoneFind_applyAdd_self {rr : RRset} {z : Zone}
    (h : zoneFind z rr.name rr.rrtype = none) :
    zoneFind (applyAdd rr z) rr.name rr.rrtype = some rr := by
  rw [applyAdd_of_find_none h, zoneFind_append, h, zoneFind,
    if_pos ⟨rfl, rfl⟩]

theorem zoneFind_applyAdd_ne {rr : RRset} {n : Name} {t : RRType}
    (hne : ¬(rr.name = n ∧ rr.rrtype = t)) :
    ∀ z : Zone, zoneFind (applyAdd rr z) n t = zoneFind z n t := by
  intro z
  induction z with
  | nil =>
    show zoneFind [rr] n t = zoneFind [] n t
    simp only [zoneFind]
    rw [if_neg hne]
  | cons rs tl ih =>
    by_cases hm : rs.name = rr.name ∧ rs.rrtype = rr.rrtype
    · rw [applyAdd, if_pos hm]
      have hcond : ¬(rs.name = n ∧ rs.rrtype = t) := fun hc =>
        hne ⟨hm.1.symm.trans hc.1, hm.2.symm.trans hc.2⟩
      rw [zoneFind, zoneFind, if_neg hcond, if_neg hcond]
    · rw [applyAdd, if_neg hm, zoneFind, zoneFind]
      by_cases hc : rs.name = n ∧ rs.rrtype = t
      · rw [if_pos hc, if_pos hc]
      · rw [if_neg hc, if_neg hc, ih]

theorem zoneFind_applyDel_ne {rr : RRset} {n : Name} {t : RRType}
    (hne : ¬(rr.name = n ∧ rr.rrtype = t)) :
    ∀ z : Zone, zoneFind (applyDel rr z) n t = zoneFind z n t := by
  intro z
  induction z with
  | nil => rfl
  | cons rs tl ih =>
    by_cases hm : rs.name = rr.name ∧ rs.rrtype = rr.rrtype
    · rw [applyDel, if_pos hm]
      have hcond : ¬(rs.name = n ∧ rs.rrtype = t) := fun hc =>
        hne ⟨hm.1.symm.trans hc.1, hm.2.symm.trans hc.2⟩
      split
      · rw [zoneFind, if_neg hcond]
      · rw [zoneFind, zoneFind, if_neg hcond, if_neg hcond]
    · rw [applyDel, if_neg hm, zoneFind, zoneFind]
      by_cases hc : rs.name = n ∧ rs.rrtype = t
      · rw [if_pos hc, if_pos hc]
      · rw [if_neg hc, if_neg hc, ih]

theorem zoneFind_eq_none_of_not_mem_keys {n : Name} {t : RRType} :
    ∀ {z : Zone}, (n, t) ∉ z.map (fun rs => (rs.name, rs.rrtype)) →
      zoneFind z n t = none := by
  intro z
  induction z with
  | nil => intro _; rfl
  | cons rs tl ih =>
    intro h
    rw [List.map_cons, List.mem_cons] at h
    push_neg at h
    rw [zoneFind, if_neg, ih h.2]
    intro hc
    exact h.1 (by rw [hc.1, hc.2])

theorem zoneFind_applyDel_self_drop {rr rs : RRset} :
    ∀ {z : Zone}, zoneKeysNodup z →
      zoneFind z rr.name rr.rrtype = some rs →
      eraseAll rs.rdata rr.rdata = [] →
      zoneFind (applyDel rr z) rr.name rr.rrtype = none := by
  intro z
  induction z with
  | nil => intro _ hf _; exact absurd hf (by simp [zoneFind])
  | cons hd tl ih =>
    intro hnod hf he
    rw [zoneKeysNodup, List.map_cons, List.nodup_cons] at hnod
    rw [zoneFind] at hf
    split at hf
    next hm =>
      injection hf with hf2
      subst hf2
      rw [applyDel, if_pos ⟨hm.1, hm.2⟩, if_pos he]
      refine zoneFind_eq_none_of_not_mem_keys ?_
      rw [← hm.1, ← hm.2]
      exact hnod.1
    next hm =>
      rw [applyDel, if_neg hm, zoneFind, if_neg hm]
      exact ih hnod.2 hf he

theorem zoneFind_ne_none_of_mem_keys {n : Name} {t : RRType} :
    ∀ {z : Zone}, (n, t) ∈ z.map (fun rs => (rs.name, rs.rrtype)) →
      zoneFind z n t ≠ none := by
  intro z
  induction z with
  | nil => simp
  | cons a as ih =>
    intro h
    rw [List.map_cons, List.mem_cons] at h
    rw [zoneFind]
    rcases h with h1 | h2
    · rw [Prod.mk.injEq] at h1
      rw [if_pos ⟨h1.1.symm, h1.2.symm⟩]
      simp
    · split
      · simp
      · exact ih h2

theorem applyAdd_keys (rr : RRset) :
    ∀ z : Zone, (applyAdd rr z).map (fun x => (x.name, x.rrtype)) =
      z.map (fun x => (x.name, x.rrtype)) ++
        (if zoneFind z rr.name rr.rrtype = none then [(rr.name, rr.rrtype)]
         else []) := by
  intro z
  induction z with
  | nil => simp [applyAdd, zoneFind]
  | cons a as iha =>
    by_cases hc : a.name = rr.name ∧ a.rrtype = rr.rrtype
    · rw [applyAdd, if_pos hc, zoneFind, if_pos hc]
      simp
    · rw [applyAdd, if_neg hc, zoneFind, if_neg hc, List.map_cons,
        List.map_cons, iha, List.cons_append]

theorem zoneKeysNodup_applyAdd {rr : RRset} {z : Zone}
    (h : zoneKeysNodup z) : zoneKeysNodup (applyAdd rr z) := by
  rw [zoneKeysNodup, applyAdd_keys]
  split
  next hzf =>
    rw [List.nodup_append]
    refine ⟨h, List.nodup_singleton _, ?_⟩
    intro a ha hb
    rw [List.mem_singleton] at hb
    subst hb
    exact zoneFind_ne_none_of_mem_keys ha hzf
  next => simpa using h

theorem applyDel_keys_sublist (rr : RRset) :
    ∀ z : Zone, ((applyDel rr z).map (fun x => (x.name, x.rrtype))).Sublist
      (z.map (fun x => (x.name, x.rrtype))) := by
  intro z
  induction z with
  | nil => simp [applyDel]
  | cons a as iha =>
    by_cases hc : a.name = rr.name ∧ a.rrtype = rr.rrtype
    · rw [applyDel, if_pos hc]
      split
      · rw [List.map_cons]
        exact List.sublist_cons_self _ _
      · rw [List.map_cons, List.map_cons]
    · rw [applyDel, if_neg hc, List.map_cons, List.map_cons]
      exact List.Sublist.cons₂ _ iha

theorem zoneKeysNodup_applyDel {rr : RRset} {z : Zone}
    (h : zoneKeysNodup z) : zoneKeysNodup (applyDel rr z) :=
  List.Nodup.sublist (applyDel_keys_sublist rr z) h

theorem applyAdd_applyAdd {r : Rdata} {rr : RRset} (hrr : rr.rdata = [r]) :
    ∀ z : Zone, applyAdd rr (applyAdd rr z) = applyAdd rr z := by
  intro z
  induction z with
  | nil =>
    show applyAdd rr [rr] = [rr]
    rw [applyAdd, if_pos ⟨rfl, rfl⟩, hrr]
    show ({ rr with rdata := insertRd [r] r } : RRset) :: [] = [rr]
    rw [insertRd, if_pos (by simp)]
    rw [← hrr]
  | cons rs tl ih =>
    by_cases hm : rs.name = rr.name ∧ rs.rrtype = rr.rrtype
    · rw [applyAdd, if_pos hm, applyAdd, if_pos hm]
      have hins : insertAll (insertAll rs.rdata rr.rdata) rr.rdata =
          insertAll rs.rdata rr.rdata := by
        rw [hrr]
        show insertRd (insertRd rs.rdata r) r = insertRd rs.rdata r
        exact insertRd_insertRd rs.rdata r
      rw [hins]
    · rw [applyAdd, if_neg hm, applyAdd, if_neg hm, ih]

theorem applyDel_noop {rr : RRset} :
    ∀ {z : Zone} {rs : RRset}, zoneFind z rr.name rr.rrtype = some rs →
      eraseAll rs.rdata rr.rdata = rs.rdata → rs.rdata ≠ [] →
      applyDel rr z = z := by
  intro z
  induction z with
  | nil => intro rs hf _ _; exact absurd hf (by simp [zoneFind])
  | cons hd tl ih =>
    intro rs hf he hne
    rw [zoneFind] at hf
    split at hf
    next hm =>
      injection hf with hf2
      subst hf2
      rw [applyDel, if_pos hm, he, if_neg hne]
    next hm =>
      rw [applyDel, if_neg hm, ih hf he hne]

theorem applyAdd_noop {rr : RRset} :
    ∀ {z : Zone} {rs : RRset}, zoneFind z rr.name rr.rrtype = some rs →
      insertAll rs.rdata rr.rdata = rs.rdata →
      applyAdd rr z = z := by
  intro z
  induction z with
  | nil => intro rs hf _; exact absurd hf (by simp [zoneFind])
  | cons hd tl ih =>
    intro rs hf he
    rw [zoneFind] at hf
    split at hf
    next hm =>
      injection hf with hf2
      subst hf2
      rw [applyAdd, if_pos hm, he]
    next hm =>
      rw [applyAdd, if_neg hm, ih hf he]

theorem finderFind_success_inv {z : Zone} {n : Name} {t : RRType}
    {orig : RRset} (h : finderFind z n t = ⟨.success, some orig⟩) :
    zoneFind z n t = some orig := by
  cases hz : zoneFind z n t with
  | some rs =>
    rw [finderFind_of_zoneFind hz] at h
    injection h with _ h2
  | none =>
    have := finderFind_status_of_none hz
    rw [h] at this
    exact absurd rfl this

theorem update_soa_inv {z : Zone} {zname : Name} {added : Option RRset}
    {soaOps : List DiffOp}
    (h : update_soa z zname added = .ok soaOps) :
    ∃ old, (finderFind z zname RRType.SOA).rrset = some old ∧
      soaOps = [.del old, .add (added.getD old)] := by
  unfold update_soa at h
  split at h
  next => exact absurd h (by simp)
  next old heq =>
    injection h with h2
    exact ⟨old, heq, h2.symm⟩

theorem finderFind_rrset_keys {z : Zone} {n : Name} {t : RRType}
    {rs : RRset} (h : (finderFind z n t).rrset = some rs) :
    (rs.name = n ∧ rs.rrtype = t ∧ zoneFind z n t = some rs) ∨
    (rs.name = n ∧ rs.rrtype = RRType.CNAME ∧
      zoneFind z n RRType.CNAME = some rs ∧ zoneFind z n t = none) := by
  unfold finderFind at h
  cases hz : zoneFind z n t with
  | some found =>
    rw [hz] at h
    injection h with h2
    subst h2
    obtain ⟨hn, ht⟩ := zoneFind_some_keys hz
    exact Or.inl ⟨hn, ht, rfl⟩
  | none =>
    rw [hz] at h
    split at h
    next heq => exact absurd heq (by simp)
    next =>
      split at h
      next hne =>
        split at h
        next c heq =>
          injection h with h2
          subst h2
          obtain ⟨hn, ht⟩ := zoneFind_some_keys heq
          exact Or.inr ⟨hn, ht, heq, rfl⟩
        next heq =>
          split at h <;> exact absurd h (by simp)
      next hne =>
        split at h <;> exact absurd h (by simp)

theorem mem_of_getLast?_eq {l : List Rdata} {r : Rdata}
    (h : l.getLast? = some r) : r ∈ l := by
  have : r ∈ l.getLast? := by rw [h]; rfl
  obtain ⟨hne, heq⟩ := List.mem_getLast?_eq_getLast this
  rw [heq]
  exact List.getLast_mem hne

theorem foldl_soaCandidateStep_shape (zclass : RRClass) :
    ∀ (us : List RRset) (acc : Option RRset),
      us.foldl (soaCandidateStep zclass) acc = acc ∨
      ∃ u r', u ∈ us ∧ u.rrclass = zclass ∧ u.rrtype = RRType.SOA ∧
        r' ∈ u.rdata ∧
        us.foldl (soaCandidateStep zclass) acc = some (oneRR u r') := by
  intro us
  induction us with
  | nil => intro _; exact Or.inl rfl
  | cons u rest ih =>
    intro acc
    rw [List.foldl_cons]
    have hstep : soaCandidateStep zclass acc u = acc ∨
        ∃ r', u.rrclass = zclass ∧ u.rrtype = RRType.SOA ∧ r' ∈ u.rdata ∧
          soaCandidateStep zclass acc u = some (oneRR u r') := by
      rw [soaCandidateStep]
      split
      next hcond =>
        cases hg : u.rdata.getLast? with
        | some r' =>
          exact Or.inr ⟨r', hcond.1, hcond.2, mem_of_getLast?_eq hg, rfl⟩
        | none => exact Or.inl rfl
      next => exact Or.inl rfl
    rcases ih (soaCandidateStep zclass acc u) with h1 | ⟨u2, r2, hmem, hc2, ht2, hr2, hval⟩
    · rw [h1]
      rcases hstep with h2 | ⟨r', hc, ht, hr, hval⟩
      · exact Or.inl h2
      · exact Or.inr ⟨u, r', List.mem_cons_self u rest, hc, ht, hr, hval⟩
    · exact Or.inr ⟨u2, r2, List.mem_cons_of_mem u hmem, hc2, ht2, hr2, hval⟩

/-! ## C8: adding the same Rdata twice equals adding it once -/

theorem prescan_two_records (zname : Name) (zclass : RRClass) (n : Name)
    (t : RRType) (ttl : Nat) (r : Rdata) :
    do_prescan zname zclass
        [⟨n, zclass, t, ttl, [r]⟩, ⟨n, zclass, t, ttl, [r]⟩] =
      do_prescan zname zclass [⟨n, zclass, t, ttl, [r]⟩] := by
  unfold do_prescan
  by_cases hin : check_in_zone ⟨n, zclass, t, ttl, [r]⟩ zname = true
  · by_cases hcode : t.code ≥ 249
    · simp [do_prescan_loop, hin, hcode]
    · by_cases hsoa : t = RRType.SOA
      · subst hsoa
        have hc6 : ¬ 249 ≤ RRType.SOA.code := by decide
        simp [do_prescan_loop, hin, hc6, rrset_as_rrs_capture]
      · simp [do_prescan_loop, hin, hcode, hsoa]
  · simp [do_prescan_loop, hin]

theorem add_pair_shapes (z : Zone) (n : Name) (zclass : RRClass)
    (t : RRType) (ttl : Nat) (r : Rdata) (ht : ¬ t = RRType.SOA) :
    (∃ e, do_update_add_rrs_to_rrset z ⟨n, zclass, t, ttl, [r]⟩ = .error e ∧
      do_update_add_rrs_to_rrset z ⟨n, zclass, t, ttl, [r, r]⟩ = .error e) ∨
    (do_update_add_rrs_to_rrset z ⟨n, zclass, t, ttl, [r]⟩ = .ok [] ∧
      do_update_add_rrs_to_rrset z ⟨n, zclass, t, ttl, [r, r]⟩ = .ok []) ∨
    (do_update_add_rrs_to_rrset z ⟨n, zclass, t, ttl, [r]⟩ =
        .ok [.add (oneRR ⟨n, zclass, t, ttl, [r]⟩ r)] ∧
      do_update_add_rrs_to_rrset z ⟨n, zclass, t, ttl, [r, r]⟩ =
        .ok [.add (oneRR ⟨n, zclass, t, ttl, [r]⟩ r),
             .add (oneRR ⟨n, zclass, t, ttl, [r]⟩ r)]) ∨
    (∃ orig, t = RRType.CNAME ∧ zoneFind z n t = some orig ∧
      r ∈ orig.rdata ∧
      do_update_add_rrs_to_rrset z ⟨n, zclass, t, ttl, [r]⟩ =
        .ok [.del orig] ∧
      do_update_add_rrs_to_rrset z ⟨n, zclass, t, ttl, [r, r]⟩ =
        .ok [.del orig]) ∨
    (∃ orig, t = RRType.CNAME ∧ zoneFind z n t = some orig ∧
      r ∉ orig.rdata ∧
      do_update_add_rrs_to_rrset z ⟨n, zclass, t, ttl, [r]⟩ =
        .ok [.del orig, .add (oneRR ⟨n, zclass, t, ttl, [r]⟩ r)] ∧
      do_update_add_rrs_to_rrset z ⟨n, zclass, t, ttl, [r, r]⟩ =
        .ok [.del orig, .add (oneRR ⟨n, zclass, t, ttl, [r]⟩ r),
             .add (oneRR ⟨n, zclass, t, ttl, [r]⟩ r)]) := by
  cases hf : finderFind z n t with
  | mk st o =>
    cases st with
    | success =>
      cases o with
      | none =>
        refine Or.inl ⟨.attributeError, ?_, ?_⟩ <;>
          (simp only [do_update_add_rrs_to_rrset, hf]
           simp [ht])
      | some orig =>
        have horig := finderFind_success_inv hf
        obtain ⟨hon, hot⟩ := zoneFind_some_keys horig
        by_cases hcn : t = RRType.CNAME
        · have hotc : orig.rrtype = RRType.CNAME := hot.trans hcn
          have hcs : ¬ RRType.CNAME = RRType.SOA := by decide
          by_cases hr : r ∈ orig.rdata
          · refine Or.inr (Or.inr (Or.inr (Or.inl
              ⟨orig, hcn, horig, hr, ?_, ?_⟩))) <;>
              (simp only [do_update_add_rrs_to_rrset, hf]
               simp [ht, hcn, hotc, hcs, add_rrs_loop, add_rrs_loop_go,
                 do_update_add_single_rr, oneRR, hr])
          · refine Or.inr (Or.inr (Or.inr (Or.inr
              ⟨orig, hcn, horig, hr, ?_, ?_⟩))) <;>
              (simp only [do_update_add_rrs_to_rrset, hf]
               simp [ht, hcn, hotc, hcs, add_rrs_loop, add_rrs_loop_go,
                 do_update_add_single_rr, oneRR, hr])
        · have hoc : ¬ orig.rrtype = RRType.CNAME := by
            rw [hot]; exact hcn
          by_cases hr : r ∈ orig.rdata
          · refine Or.inr (Or.inl ⟨?_, ?_⟩) <;>
              (simp only [do_update_add_rrs_to_rrset, hf]
               simp [ht, hcn, hoc, add_rrs_loop, add_rrs_loop_go,
                 do_update_add_single_rr, oneRR, hr])
          · refine Or.inr (Or.inr (Or.inl ⟨?_, ?_⟩)) <;>
              (simp only [do_update_add_rrs_to_rrset, hf]
               simp [ht, hcn, hoc, add_rrs_loop, add_rrs_loop_go,
                 do_update_add_single_rr, oneRR, hr])
    | nxdomain =>
      cases o with
      | none =>
        refine Or.inl ⟨.attributeError, ?_, ?_⟩ <;>
          (simp only [do_update_add_rrs_to_rrset, hf]
           simp [ht, add_rrs_loop, add_rrs_loop_go,
             do_update_add_single_rr, oneRR])
      | some ex =>
        by_cases hr : r ∈ ex.rdata
        · refine Or.inr (Or.inl ⟨?_, ?_⟩) <;>
            (simp only [do_update_add_rrs_to_rrset, hf]
             simp [ht, add_rrs_loop, add_rrs_loop_go,
               do_update_add_single_rr, oneRR, hr])
        · refine Or.inr (Or.inr (Or.inl ⟨?_, ?_⟩)) <;>
            (simp only [do_update_add_rrs_to_rrset, hf]
             simp [ht, add_rrs_loop, add_rrs_loop_go,
               do_update_add_single_rr, oneRR, hr])
    | nxrrset =>
      cases o with
      | none =>
        refine Or.inl ⟨.attributeError, ?_, ?_⟩ <;>
          (simp only [do_update_add_rrs_to_rrset, hf]
           simp [ht, add_rrs_loop, add_rrs_loop_go,
             do_update_add_single_rr, oneRR])
      | some ex =>
        by_cases hr : r ∈ ex.rdata
        · refine Or.inr (Or.inl ⟨?_, ?_⟩) <;>
            (simp only [do_update_add_rrs_to_rrset, hf]
             simp [ht, add_rrs_loop, add_rrs_loop_go,
               do_update_add_single_rr, oneRR, hr])
        · refine Or.inr (Or.inr (Or.inl ⟨?_, ?_⟩)) <;>
            (simp only [do_update_add_rrs_to_rrset, hf]
             simp [ht, add_rrs_loop, add_rrs_loop_go,
               do_update_add_single_rr, oneRR, hr])
    | cnameFound =>
      cases o with
      | none =>
        refine Or.inl ⟨.attributeError, ?_, ?_⟩ <;>
          (simp only [do_update_add_rrs_to_rrset, hf]
           simp [ht, add_rrs_loop, add_rrs_loop_go,
             do_update_add_single_rr, oneRR])
      | some ex =>
        by_cases hr : r ∈ ex.rdata
        · refine Or.inr (Or.inl ⟨?_, ?_⟩) <;>
            (simp only [do_update_add_rrs_to_rrset, hf]
             simp [ht, add_rrs_loop, add_rrs_loop_go,
               do_update_add_single_rr, oneRR, hr])
        · refine Or.inr (Or.inr (Or.inl ⟨?_, ?_⟩)) <;>
            (simp only [do_update_add_rrs_to_rrset, hf]
             simp [ht, add_rrs_loop, add_rrs_loop_go,
               do_update_add_single_rr, oneRR, hr])

theorem applyDiff_add_add (z : Zone) (Q : List DiffOp) {r : Rdata}
    {rr : RRset} (h : rr.rdata = [r]) :
    applyDiff z (Q ++ [DiffOp.add rr, DiffOp.add rr]) =
      applyDiff z (Q ++ [DiffOp.add rr]) := by
  rw [applyDiff_append, applyDiff_append]
  exact applyAdd_applyAdd h _

theorem dispatch_rrset_zclass (z : Zone) (zname : Name) (zclass : RRClass)
    (n : Name) (t : RRType) (ttl : Nat) (l : List Rdata) :
    dispatch_rrset z zname zclass ⟨n, zclass, t, ttl, l⟩ =
      do_update_add_rrs_to_rrset z ⟨n, zclass, t, ttl, l⟩ := by
  unfold dispatch_rrset
  rw [if_pos (show (⟨n, zclass, t, ttl, l⟩ : RRset).rrclass = zclass from
    rfl)]

/-- C8: for every zone store (with pairwise-distinct RRset keys) and every
zone-class addition, an update carrying the same Rdata twice — inside one
update RRset or as two update records of the same name and type — drives
`__do_update` to the same result and committed zone state as the update
that adds it once. -/
theorem c8_duplicate_add_equals_single (ds : Datasource) (zname : Name)
    (zclass : RRClass) (n : Name) (t : RRType) (ttl : Nat) (r : Rdata)
    (hnod : zoneKeysNodup ds.zone) :
    do_update ds zname zclass [⟨n, zclass, t, ttl, [r, r]⟩] =
      do_update ds zname zclass [⟨n, zclass, t, ttl, [r]⟩] ∧
    do_update ds zname zclass
        [⟨n, zclass, t, ttl, [r]⟩, ⟨n, zclass, t, ttl, [r]⟩] =
      do_update ds zname zclass [⟨n, zclass, t, ttl, [r]⟩] := by
  have hpre1 : do_prescan zname zclass [⟨n, zclass, t, ttl, [r, r]⟩] =
      do_prescan zname zclass [⟨n, zclass, t, ttl, [r]⟩] := rfl
  have hpre2 := prescan_two_records zname zclass n t ttl r
  unfold do_update
  rw [hpre1, hpre2]
  cases hps : do_prescan zname zclass [⟨n, zclass, t, ttl, [r]⟩] with
  | error e => exact ⟨rfl, rfl⟩
  | ok p =>
    obtain ⟨rc, added⟩ := p
    by_cases hrc : rc = Rcode.NOERROR
    case neg =>
      constructor <;> simp [hrc]
    case pos =>
      subst hrc
      simp only [ne_eq, not_true_eq_false, if_false]
      cases hus : update_soa ds.zone zname added with
      | error e => exact ⟨rfl, rfl⟩
      | ok soaOps =>
        by_cases ht : t = RRType.SOA
        · have hde : do_update_add_rrs_to_rrset ds.zone
              ⟨n, zclass, t, ttl, [r]⟩ = .ok [] := by
            simp [do_update_add_rrs_to_rrset, ht]
          have hdd : do_update_add_rrs_to_rrset ds.zone
              ⟨n, zclass, t, ttl, [r, r]⟩ = .ok [] := by
            simp [do_update_add_rrs_to_rrset, ht]
          simp [dispatch_all, dispatch_rrset_zclass, hde, hdd]
        · rcases add_pair_shapes ds.zone n zclass t ttl r ht with
            ⟨e, he1, he2⟩ | ⟨h1, h2⟩ | ⟨h1, h2⟩ |
            ⟨orig, hcn, horig, hr, h1, h2⟩ | ⟨orig, hcn, horig, hr, h1, h2⟩
          · simp [dispatch_all, dispatch_rrset_zclass, he1, he2]
          · simp [dispatch_all, dispatch_rrset_zclass, h1, h2]
          · simp only [dispatch_all, dispatch_rrset_zclass, h1, h2,
              List.append_nil, List.cons_append, List.nil_append]
            have hidem := @applyDiff_add_add ds.zone soaOps r
              (oneRR ⟨n, zclass, t, ttl, [r]⟩ r) rfl
            constructor <;> rw [hidem]
          · -- delete of the existing CNAME RRset, Rdata already present
            obtain ⟨old, holdr, hsoaOps⟩ := update_soa_inv hus
            obtain ⟨hono, hoto⟩ := zoneFind_some_keys horig
            have haddedn : added = none := by
              have hacc := do_prescan_loop_acc zname zclass
                [⟨n, zclass, t, ttl, [r]⟩] none added hps
              rcases foldl_soaCandidateStep_shape zclass
                  [⟨n, zclass, t, ttl, [r]⟩] none with hsh |
                  ⟨u, r', hmem, huc, hut, hur, hval⟩
              · rw [hacc, hsh]
              · rw [List.mem_singleton] at hmem
                subst hmem
                exact absurd hut ht
            subst haddedn
            have hsoaOps2 : soaOps = [.del old, .add old] := hsoaOps
            have hnodW : zoneKeysNodup (applyDiff ds.zone soaOps) := by
              rw [hsoaOps2]
              exact zoneKeysNodup_applyAdd (zoneKeysNodup_applyDel hnod)
            have hfindW : zoneFind (applyDiff ds.zone soaOps) orig.name
                orig.rrtype = some orig := by
              have horig2 : zoneFind ds.zone orig.name orig.rrtype =
                  some orig := by rw [hono, hoto]; exact horig
              rcases finderFind_rrset_keys holdr with
                ⟨hn1, ht1, hz1⟩ | ⟨hn1, ht1, hz1, hz2⟩
              · have hne : ¬(old.name = orig.name ∧
                    old.rrtype = orig.rrtype) := by
                  intro hc
                  rw [ht1] at hc
                  rw [hoto, hcn] at hc
                  exact absurd hc.2 (by decide)
                rw [hsoaOps2]
                show zoneFind (applyAdd old (applyDel old ds.zone))
                  orig.name orig.rrtype = some orig
                rw [zoneFind_applyAdd_ne hne, zoneFind_applyDel_ne hne]
                exact horig2
              · by_cases hkey : old.name = orig.name ∧
                    old.rrtype = orig.rrtype
                · have holdfind : zoneFind ds.zone old.name old.rrtype =
                      some old := by rw [hn1, ht1]; exact hz1
                  have heqold : old = orig := by
                    have h5 : zoneFind ds.zone old.name old.rrtype =
                        some orig := by rw [hkey.1, hkey.2]; exact horig2
                    exact Option.some.inj (holdfind.symm.trans h5)
                  rw [hsoaOps2]
                  show zoneFind (applyAdd old (applyDel old ds.zone))
                    orig.name orig.rrtype = some orig
                  rw [← hkey.1, ← hkey.2]
                  rw [heqold] at holdfind ⊢
                  have hdrop : zoneFind (applyDel orig ds.zone) orig.name
                      orig.rrtype = none :=
                    zoneFind_applyDel_self_drop hnod holdfind
                      (eraseAll_self orig.rdata)
                  exact zoneFind_applyAdd_self hdrop
                · rw [hsoaOps2]
                  show zoneFind (applyAdd old (applyDel old ds.zone))
                    orig.name orig.rrtype = some orig
                  rw [zoneFind_applyAdd_ne hkey, zoneFind_applyDel_ne hkey]
                  exact horig2
            have hWdrop : zoneFind (applyDel orig (applyDiff ds.zone
                soaOps)) orig.name orig.rrtype = none :=
              zoneFind_applyDel_self_drop hnodW hfindW
                (eraseAll_self orig.rdata)
            have hdelidem : applyDel orig (applyDel orig
                (applyDiff ds.zone soaOps)) =
                applyDel orig (applyDiff ds.zone soaOps) :=
              applyDel_of_find_none hWdrop
            simp only [dispatch_all, dispatch_rrset_zclass, h1, h2,
              List.append_nil, List.cons_append, List.nil_append]
            have hd2 : applyDiff ds.zone
                (soaOps ++ [DiffOp.del orig, DiffOp.del orig]) =
                applyDiff ds.zone (soaOps ++ [DiffOp.del orig]) := by
              rw [applyDiff_append, applyDiff_append]
              exact hdelidem
            exact ⟨trivial, by rw [hd2]⟩
          · -- delete of the existing CNAME RRset, then add of new Rdata
            obtain ⟨old, holdr, hsoaOps⟩ := update_soa_inv hus
            obtain ⟨hono, hoto⟩ := zoneFind_some_keys horig
            have haddedn : added = none := by
              have hacc := do_prescan_loop_acc zname zclass
                [⟨n, zclass, t, ttl, [r]⟩] none added hps
              rcases foldl_soaCandidateStep_shape zclass
                  [⟨n, zclass, t, ttl, [r]⟩] none with hsh |
                  ⟨u, r', hmem, huc, hut, hur, hval⟩
              · rw [hacc, hsh]
              · rw [List.mem_singleton] at hmem
                subst hmem
                exact absurd hut ht
            subst haddedn
            have hsoaOps2 : soaOps = [.del old, .add old] := hsoaOps
            have hnodW : zoneKeysNodup (applyDiff ds.zone soaOps) := by
              rw [hsoaOps2]
              exact zoneKeysNodup_applyAdd (zoneKeysNodup_applyDel hnod)
            have hfindW : zoneFind (applyDiff ds.zone soaOps) orig.name
                orig.rrtype = some orig := by
              have horig2 : zoneFind ds.zone orig.name orig.rrtype =
                  some orig := by rw [hono, hoto]; exact horig
              rcases finderFind_rrset_keys holdr with
                ⟨hn1, ht1, hz1⟩ | ⟨hn1, ht1, hz1, hz2⟩
              · have hne : ¬(old.name = orig.name ∧
                    old.rrtype = orig.rrtype) := by
                  intro hc
                  rw [ht1] at hc
                  rw [hoto, hcn] at hc
                  exact absurd hc.2 (by decide)
                rw [hsoaOps2]
                show zoneFind (applyAdd old (applyDel old ds.zone))
                  orig.name orig.rrtype = some orig
                rw [zoneFind_applyAdd_ne hne, zoneFind_applyDel_ne hne]
                exact horig2
              · by_cases hkey : old.name = orig.name ∧
                    old.rrtype = orig.rrtype
                · have holdfind : zoneFind ds.zone old.name old.rrtype =
                      some old := by rw [hn1, ht1]; exact hz1
                  have heqold : old = orig := by
                    have h5 : zoneFind ds.zone old.name old.rrtype =
                        some orig := by rw [hkey.1, hkey.2]; exact horig2
                    exact Option.some.inj (holdfind.symm.trans h5)
                  rw [hsoaOps2]
                  show zoneFind (applyAdd old (applyDel old ds.zone))
                    orig.name orig.rrtype = some orig
                  rw [← hkey.1, ← hkey.2]
                  rw [heqold] at holdfind ⊢
                  have hdrop : zoneFind (applyDel orig ds.zone) orig.name
                      orig.rrtype = none :=
                    zoneFind_applyDel_self_drop hnod holdfind
                      (eraseAll_self orig.rdata)
                  exact zoneFind_applyAdd_self hdrop
                · rw [hsoaOps2]
                  show zoneFind (applyAdd old (applyDel old ds.zone))
                    orig.name orig.rrtype = some orig
                  rw [zoneFind_applyAdd_ne hkey, zoneFind_applyDel_ne hkey]
                  exact horig2
            have hWdrop : zoneFind (applyDel orig (applyDiff ds.zone
                soaOps)) orig.name orig.rrtype = none :=
              zoneFind_applyDel_self_drop hnodW hfindW
                (eraseAll_self orig.rdata)
            have hWdrop2 : zoneFind (applyDel orig (applyDiff ds.zone
                soaOps)) n t = none := by
              rw [← hono, ← hoto]; exact hWdrop
            have hW2 : zoneFind (applyAdd
                (oneRR ⟨n, zclass, t, ttl, [r]⟩ r)
                (applyDel orig (applyDiff ds.zone soaOps))) n t =
                some (oneRR ⟨n, zclass, t, ttl, [r]⟩ r) :=
              zoneFind_applyAdd_self hWdrop2
            have hW2b : zoneFind (applyAdd
                (oneRR ⟨n, zclass, t, ttl, [r]⟩ r)
                (applyDel orig (applyDiff ds.zone soaOps))) orig.name
                orig.rrtype = some (oneRR ⟨n, zclass, t, ttl, [r]⟩ r) := by
              rw [hono, hoto]; exact hW2
            have hdisj : eraseAll (oneRR ⟨n, zclass, t, ttl, [r]⟩ r).rdata
                orig.rdata = (oneRR ⟨n, zclass, t, ttl, [r]⟩ r).rdata := by
              refine eraseAll_of_disjoint ?_
              intro x hx hmem
              rw [show (oneRR ⟨n, zclass, t, ttl, [r]⟩ r).rdata = [r] from
                rfl, List.mem_singleton] at hmem
              subst hmem
              exact hr hx
            have h3 : applyDel orig (applyAdd
                (oneRR ⟨n, zclass, t, ttl, [r]⟩ r)
                (applyDel orig (applyDiff ds.zone soaOps))) =
                applyAdd (oneRR ⟨n, zclass, t, ttl, [r]⟩ r)
                  (applyDel orig (applyDiff ds.zone soaOps)) :=
              applyDel_noop hW2b hdisj (by simp [oneRR])
            have h4 : applyAdd (oneRR ⟨n, zclass, t, ttl, [r]⟩ r)
                (applyAdd (oneRR ⟨n, zclass, t, ttl, [r]⟩ r)
                  (applyDel orig (applyDiff ds.zone soaOps))) =
                applyAdd (oneRR ⟨n, zclass, t, ttl, [r]⟩ r)
                  (applyDel orig (applyDiff ds.zone soaOps)) :=
              applyAdd_applyAdd rfl _
            simp only [dispatch_all, dispatch_rrset_zclass, h1, h2,
              List.append_nil, List.cons_append, List.nil_append]
            have hidem := @applyDiff_add_add ds.zone
              (soaOps ++ [DiffOp.del orig]) r
              (oneRR ⟨n, zclass, t, ttl, [r]⟩ r) rfl
            have hc1 : applyDiff ds.zone (soaOps ++ [DiffOp.del orig,
                DiffOp.add (oneRR ⟨n, zclass, t, ttl, [r]⟩ r),
                DiffOp.add (oneRR ⟨n, zclass, t, ttl, [r]⟩ r)]) =
                applyDiff ds.zone (soaOps ++ [DiffOp.del orig,
                  DiffOp.add (oneRR ⟨n, zclass, t, ttl, [r]⟩ r)]) := by
              have e1 : soaOps ++ [DiffOp.del orig,
                  DiffOp.add (oneRR ⟨n, zclass, t, ttl, [r]⟩ r),
                  DiffOp.add (oneRR ⟨n, zclass, t, ttl, [r]⟩ r)] =
                  (soaOps ++ [DiffOp.del orig]) ++
                    [DiffOp.add (oneRR ⟨n, zclass, t, ttl, [r]⟩ r),
                     DiffOp.add (oneRR ⟨n, zclass, t, ttl, [r]⟩ r)] := by
                simp
              have e2 : soaOps ++ [DiffOp.del orig,
                  DiffOp.add (oneRR ⟨n, zclass, t, ttl, [r]⟩ r)] =
                  (soaOps ++ [DiffOp.del orig]) ++
                    [DiffOp.add (oneRR ⟨n, zclass, t, ttl, [r]⟩ r)] := by
                simp
              rw [e1, e2, hidem]
            have hc2 : applyDiff ds.zone (soaOps ++ [DiffOp.del orig,
                DiffOp.add (oneRR ⟨n, zclass, t, ttl, [r]⟩ r),
                DiffOp.del orig,
                DiffOp.add (oneRR ⟨n, zclass, t, ttl, [r]⟩ r)]) =
                applyDiff ds.zone (soaOps ++ [DiffOp.del orig,
                  DiffOp.add (oneRR ⟨n, zclass, t, ttl, [r]⟩ r)]) := by
              rw [applyDiff_append, applyDiff_append]
              show applyAdd (oneRR ⟨n, zclass, t, ttl, [r]⟩ r)
                (applyDel orig (applyAdd
                  (oneRR ⟨n, zclass, t, ttl, [r]⟩ r)
                  (applyDel orig (applyDiff ds.zone soaOps)))) =
                applyAdd (oneRR ⟨n, zclass, t, ttl, [r]⟩ r)
                  (applyDel orig (applyDiff ds.zone soaOps))
              rw [h3, h4]
            exact ⟨by rw [hc1], by rw [hc2]⟩

theorem c8_witness :
    zoneKeysNodup zoneA ∧
    do_update ⟨zoneA, true⟩ [0] RRClass.IN
        [⟨[0, 3], RRClass.IN, RRType.A, 300, [9, 9]⟩] =
      do_update ⟨zoneA, true⟩ [0] RRClass.IN
        [⟨[0, 3], RRClass.IN, RRType.A, 300, [9]⟩] ∧
    do_update ⟨zoneA, true⟩ [0] RRClass.IN
        [⟨[0, 3], RRClass.IN, RRType.A, 300, [9]⟩,
         ⟨[0, 3], RRClass.IN, RRType.A, 300, [9]⟩] =
      do_update ⟨zoneA, true⟩ [0] RRClass.IN
        [⟨[0, 3], RRClass.IN, RRType.A, 300, [9]⟩] :=
  ⟨by decide,
   (c8_duplicate_add_equals_single ⟨zoneA, true⟩ [0] RRClass.IN [0, 3]
      RRType.A 300 9 (by decide)).1,
   (c8_duplicate_add_equals_single ⟨zoneA, true⟩ [0] RRClass.IN [0, 3]
      RRType.A 300 9 (by decide)).2⟩

/-! ## C1: a SUCCESS update keeps the apex SOA and at least one NS record -/

theorem count_eraseAll_ge :
    ∀ (rem l : List Rdata) (x : Rdata),
      l.count x - rem.count x ≤ (eraseAll l rem).count x
  | [], l, x => Nat.le_of_eq (by simp [eraseAll])
  | y :: ys, l, x => by
    show l.count x - ((y :: ys).count x) ≤ (eraseAll (l.erase y) ys).count x
    refine le_trans ?_ (count_eraseAll_ge ys (l.erase y) x)
    rw [List.count_erase, List.count_cons]
    by_cases hxy : x = y
    · subst hxy
      simp only [beq_self_eq_true, if_pos]
      omega
    · rw [if_neg (by simpa using Ne.symm hxy)]
      omega

theorem count_insertRd_ge (l : List Rdata) (r x : Rdata) :
    l.count x ≤ (insertRd l r).count x := by
  unfold insertRd
  split
  · exact le_refl _
  · rw [List.count_append]
    exact Nat.le_add_right _ _

theorem count_insertAll_ge :
    ∀ (new l : List Rdata) (x : Rdata),
      l.count x ≤ (insertAll l new).count x
  | [], _, _ => le_refl _
  | r :: rs, l, x =>
    le_trans (count_insertRd_ge l r x) (count_insertAll_ge rs (insertRd l r) x)

theorem count_insertAll_pos :
    ∀ (new l : List Rdata) (y : Rdata), y ∈ new →
      0 < (insertAll l new).count y
  | [], _, _, hmem => absurd hmem (List.not_mem_nil _)
  | r :: rs, l, y, hmem => by
    show 0 < (insertAll (insertRd l r) rs).count y
    rcases List.mem_cons.mp hmem with h1 | h2
    · subst h1
      refine lt_of_lt_of_le ?_ (count_insertAll_ge rs (insertRd l y) y)
      exact List.count_pos_iff.mpr (mem_insertRd_self l y)
    · exact count_insertAll_pos rs (insertRd l r) y h2

theorem rdCount_applyAdd_ge (rr : RRset) (n : Name) (t : RRType)
    (x : Rdata) : ∀ z : Zone, rdCount z n t x ≤ rdCount (applyAdd rr z) n t x := by
  intro z
  induction z with
  | nil => exact Nat.zero_le _
  | cons rs tl ih =>
    by_cases hm : rs.name = rr.name ∧ rs.rrtype = rr.rrtype
    · rw [applyAdd, if_pos hm]
      simp only [rdCount, zoneFind]
      by_cases hc : rs.name = n ∧ rs.rrtype = t
      · rw [if_pos hc, if_pos hc]
        exact count_insertAll_ge rr.rdata rs.rdata x
      · rw [if_neg hc, if_neg hc]
    · rw [applyAdd, if_neg hm]
      simp only [rdCount, zoneFind]
      by_cases hc : rs.name = n ∧ rs.rrtype = t
      · rw [if_pos hc, if_pos hc]
      · rw [if_neg hc, if_neg hc]
        exact ih

theorem rdCount_applyAdd_pos (rr : RRset) (y : Rdata) (hy : y ∈ rr.rdata) :
    ∀ z : Zone, 0 < rdCount (applyAdd rr z) rr.name rr.rrtype y := by
  intro z
  induction z with
  | nil =>
    show 0 < rdCount [rr] rr.name rr.rrtype y
    have hf : zoneFind [rr] rr.name rr.rrtype = some rr := by
      rw [zoneFind, if_pos ⟨rfl, rfl⟩]
    rw [rdCount, hf]
    exact List.count_pos_iff.mpr hy
  | cons rs tl ih =>
    by_cases hm : rs.name = rr.name ∧ rs.rrtype = rr.rrtype
    · rw [applyAdd, if_pos hm]
      simp only [rdCount, zoneFind]
      rw [if_pos hm]
      exact count_insertAll_pos rr.rdata rs.rdata y hy
    · rw [applyAdd, if_neg hm]
      simp only [rdCount, zoneFind]
      rw [if_neg hm]
      exact ih

theorem rdCount_applyDel_ge (rr : RRset) (n : Name) (t : RRType)
    (x : Rdata) :
    ∀ z : Zone,
      rdCount z n t x - opDelCount n t x (.del rr) ≤
        rdCount (applyDel rr z) n t x := by
  intro z
  induction z with
  | nil =>
    show rdCount [] n t x - _ ≤ rdCount [] n t x
    simp only [rdCount, zoneFind]
    omega
  | cons rs tl ih =>
    by_cases hm : rs.name = rr.name ∧ rs.rrtype = rr.rrtype
    · rw [applyDel, if_pos hm]
      by_cases hc : rs.name = n ∧ rs.rrtype = t
      · have hkey : rr.name = n ∧ rr.rrtype = t :=
          ⟨hm.1.symm.trans hc.1, hm.2.symm.trans hc.2⟩
        have hL : rdCount (rs :: tl) n t x = rs.rdata.count x := by
          simp only [rdCount, zoneFind]
          rw [if_pos hc]
        have hop : opDelCount n t x (.del rr) = rr.rdata.count x := by
          rw [opDelCount, if_pos hkey]
        rw [hL, hop]
        split
        next he =>
          have hb := count_eraseAll_ge rr.rdata rs.rdata x
          rw [he] at hb
          simp only [List.count_nil] at hb
          omega
        next he =>
          have hR : rdCount
              ({rs with rdata := eraseAll rs.rdata rr.rdata} :: tl) n t x =
              (eraseAll rs.rdata rr.rdata).count x := by
            simp only [rdCount, zoneFind]
            rw [if_pos hc]
          rw [hR]
          exact count_eraseAll_ge rr.rdata rs.rdata x
      · have hkeyne : ¬(rr.name = n ∧ rr.rrtype = t) := fun hk =>
          hc ⟨hm.1.trans hk.1, hm.2.trans hk.2⟩
        rw [opDelCount, if_neg hkeyne]
        have hL : rdCount (rs :: tl) n t x = rdCount tl n t x := by
          simp only [rdCount, zoneFind]
          rw [if_neg hc]
        rw [hL]
        split
        next => omega
        next =>
          have hR : rdCount
              ({rs with rdata := eraseAll rs.rdata rr.rdata} :: tl) n t x =
              rdCount tl n t x := by
            simp only [rdCount, zoneFind]
            rw [if_neg hc]
          rw [hR]
          omega
    · rw [applyDel, if_neg hm]
      by_cases hc : rs.name = n ∧ rs.rrtype = t
      · have hL : rdCount (rs :: tl) n t x = rs.rdata.count x := by
          simp only [rdCount, zoneFind]
          rw [if_pos hc]
        have hR : rdCount (rs :: applyDel rr tl) n t x =
            rs.rdata.count x := by
          simp only [rdCount, zoneFind]
          rw [if_pos hc]
        rw [hL, hR]
        exact Nat.sub_le _ _
      · have hL : rdCount (rs :: tl) n t x = rdCount tl n t x := by
          simp only [rdCount, zoneFind]
          rw [if_neg hc]
        have hR : rdCount (rs :: applyDel rr tl) n t x =
            rdCount (applyDel rr tl) n t x := by
          simp only [rdCount, zoneFind]
          rw [if_neg hc]
        rw [hL, hR]
        exact ih

theorem delCount_append (a b : List DiffOp) (n : Name) (t : RRType)
    (x : Rdata) :
    delCount (a ++ b) n t x = delCount a n t x + delCount b n t x := by
  simp [delCount]

theorem rdCount_applyDiff_ge (n : Name) (t : RRType) (x : Rdata) :
    ∀ (d : List DiffOp) (z : Zone),
      rdCount z n t x - delCount d n t x ≤ rdCount (applyDiff z d) n t x
  | [], z => by simp [delCount, applyDiff]
  | op :: d, z => by
    show rdCount z n t x - delCount (op :: d) n t x ≤
      rdCount (applyDiff (applyOp z op) d) n t x
    have hd : delCount (op :: d) n t x =
        opDelCount n t x op + delCount d n t x := by
      simp [delCount]
    have h2 := rdCount_applyDiff_ge n t x d (applyOp z op)
    have h1 : rdCount z n t x - opDelCount n t x op ≤
        rdCount (applyOp z op) n t x := by
      cases op with
      | add rr =>
        have := rdCount_applyAdd_ge rr n t x z
        simp only [opDelCount, applyOp]
        omega
      | del rr => exact rdCount_applyDel_ge rr n t x z
    omega

theorem delCount_eq_zero {n : Name} {t : RRType} {x : Rdata} :
    ∀ {o : List DiffOp}, (∀ op ∈ o, opDelCount n t x op = 0) →
      delCount o n t x = 0 := by
  intro o
  induction o with
  | nil => intro _; rfl
  | cons a l ih =>
    intro h
    show opDelCount n t x a + delCount l n t x = 0
    rw [h a (List.mem_cons_self a l),
      ih (fun op hop => h op (List.mem_cons_of_mem a hop))]

theorem rrset_as_rrs_delete_delCount_zero {td : RRset} {o : List DiffOp}
    (h : rrset_as_rrs_delete td = .ok o) (n : Name) (t : RRType) (x : Rdata)
    (hne : ¬(td.name = n ∧ td.rrtype = t)) : delCount o n t x = 0 := by
  unfold rrset_as_rrs_delete at h
  split at h
  · exact absurd h (by simp)
  · injection h with h2
    subst h2
    refine delCount_eq_zero ?_
    intro op hop
    obtain ⟨r, hr, hopr⟩ := List.mem_map.mp hop
    subst hopr
    simp [opDelCount, oneRR, hne]

theorem do_update_add_single_rr_delCount {existing : Option RRset}
    {rr : RRset} {o : List DiffOp}
    (h : do_update_add_single_rr existing rr = .ok o) (n : Name)
    (t : RRType) (x : Rdata) : delCount o n t x = 0 := by
  unfold do_update_add_single_rr at h
  split at h
  · exact absurd h (by simp)
  · split at h
    · exact absurd h (by simp)
    · split at h <;> (injection h with h2; subst h2; rfl)

theorem add_rrs_loop_go_delCount {existing : Option RRset} {rrset : RRset} :
    ∀ {l : List Rdata} {o : List DiffOp},
      add_rrs_loop_go existing rrset l = .ok o →
      ∀ (n : Name) (t : RRType) (x : Rdata), delCount o n t x = 0 := by
  intro l
  induction l with
  | nil =>
    intro o h n t x
    injection h with h2
    subst h2
    rfl
  | cons r rest ih =>
    intro o h n t x
    rw [add_rrs_loop_go] at h
    split at h
    · exact absurd h (by simp)
    next o1 heq1 =>
      split at h
      · exact absurd h (by simp)
      next o2 heq2 =>
        injection h with h2
        subst h2
        rw [delCount_append, do_update_add_single_rr_delCount heq1 n t x,
          ih heq2 n t x]

theorem add_rrs_loop_delCount {existing : Option RRset} {rrset : RRset}
    {o : List DiffOp} (h : add_rrs_loop existing rrset = .ok o) (n : Name)
    (t : RRType) (x : Rdata) : delCount o n t x = 0 := by
  unfold add_rrs_loop at h
  split at h
  · exact absurd h (by simp)
  · exact add_rrs_loop_go_delCount h n t x

theorem do_update_add_rrs_delCount {z : Zone} {rrset : RRset}
    {o : List DiffOp} (h : do_update_add_rrs_to_rrset z rrset = .ok o)
    (n : Name) (t : RRType) (x : Rdata) (htc : ¬ t = RRType.CNAME) :
    delCount o n t x = 0 := by
  unfold do_update_add_rrs_to_rrset at h
  split at h
  · injection h with h2; subst h2; rfl
  · split at h
    next orig heq =>
      split at h
      next hcn =>
        split at h
        next hoc =>
          split at h
          · exact absurd h (by simp)
          next o1 heq =>
            injection h with h2
            subst h2
            have h1 := add_rrs_loop_delCount heq n t x
            have hne2 : ¬(orig.name = n ∧ orig.rrtype = t) := fun hc =>
              htc (hc.2.symm.trans hoc)
            show opDelCount n t x (.del orig) + delCount o1 n t x = 0
            rw [h1, opDelCount, if_neg hne2]
        next => injection h with h2; subst h2; rfl
      next hcn =>
        split at h
        next => injection h with h2; subst h2; rfl
        next => exact add_rrs_loop_delCount h n t x
    next => exact absurd h (by simp)
    next fs orig heq => exact add_rrs_loop_delCount h n t x

theorem do_update_delete_rrset_delCount {z : Zone} {zname : Name}
    {rrset : RRset} {o : List DiffOp}
    (h : do_update_delete_rrset z zname rrset = .ok o) (x : Rdata)
    (t : RRType) (hts : t = RRType.SOA ∨ t = RRType.NS) :
    delCount o zname t x = 0 := by
  unfold do_update_delete_rrset at h
  split at h
  · exact absurd h (by simp)
  next td heq =>
    split at h
    next hskip => injection h with h2; subst h2; rfl
    next hskip =>
      refine rrset_as_rrs_delete_delCount_zero h zname t x ?_
      intro hc
      exact hskip ⟨hc.1, by rw [hc.2]; exact hts⟩

theorem delete_name_loop_delCount {zname : Name} :
    ∀ {rrsets : List RRset} {o : List DiffOp},
      delete_name_loop zname rrsets = .ok o → ∀ (t : RRType) (x : Rdata),
        (t = RRType.SOA ∨ t = RRType.NS) → delCount o zname t x = 0 := by
  intro rrsets
  induction rrsets with
  | nil =>
    intro o h t x hts
    injection h with h2
    subst h2
    rfl
  | cons td rest ih =>
    intro o h t x hts
    rw [delete_name_loop] at h
    split at h
    · exact ih h t x hts
    next hskip =>
      split at h
      · exact absurd h (by simp)
      next o1 heq1 =>
        split at h
        · exact absurd h (by simp)
        next o2 heq2 =>
          injection h with h2
          subst h2
          rw [delCount_append, ih heq2 t x hts,
            rrset_as_rrs_delete_delCount_zero heq1 zname t x
              (fun hc => hskip ⟨hc.1, by rw [hc.2]; exact hts⟩)]

theorem do_update_delete_name_delCount {z : Zone} {zname : Name}
    {rrset : RRset} {o : List DiffOp}
    (h : do_update_delete_name z zname rrset = .ok o) (t : RRType)
    (x : Rdata) (hts : t = RRType.SOA ∨ t = RRType.NS) :
    delCount o zname t x = 0 := by
  unfold do_update_delete_name at h
  split at h
  next rrsets heq => exact delete_name_loop_delCount h t x hts
  next => injection h with h2; subst h2; rfl

theorem ns_deleter_loop_delCount_other {meta : RRset} :
    ∀ {rds temp : List Rdata} {o : List DiffOp},
      ns_deleter_loop meta rds temp = .ok o →
      ∀ (n : Name) (t : RRType) (x : Rdata),
        ¬(meta.name = n ∧ meta.rrtype = t) → delCount o n t x = 0 := by
  intro rds
  induction rds with
  | nil =>
    intro temp o h n t x hne
    injection h with h2
    subst h2
    rfl
  | cons r rest ih =>
    intro temp o h n t x hne
    rw [ns_deleter_loop] at h
    split at h
    · exact ih h n t x hne
    · split at h
      · split at h
        · exact absurd h (by simp)
        next o1 heq =>
          injection h with h2
          subst h2
          show opDelCount n t x (.del (oneRR meta r)) + delCount o1 n t x = 0
          rw [ih heq n t x hne, opDelCount,
            if_neg (by simpa [oneRR] using hne)]
      · exact absurd h (by simp)

theorem ns_deleter_helper_delCount_other {z : Zone} {rrset : RRset}
    {o : List DiffOp} (h : ns_deleter_helper z rrset = .ok o) (n : Name)
    (t : RRType) (x : Rdata) (hne : ¬(rrset.name = n ∧ rrset.rrtype = t)) :
    delCount o n t x = 0 := by
  unfold ns_deleter_helper at h
  split at h
  · exact absurd h (by simp)
  next orig heq => exact ns_deleter_loop_delCount_other h n t x hne

theorem ns_deleter_loop_bounds {meta : RRset} :
    ∀ {rds temp : List Rdata} {o : List DiffOp},
      ns_deleter_loop meta rds temp = .ok o →
      (∀ x, delCount o meta.name meta.rrtype x ≤ temp.count x) ∧
      (temp ≠ [] →
        ∃ y, delCount o meta.name meta.rrtype y < temp.count y) := by
  intro rds
  induction rds with
  | nil =>
    intro temp o h
    injection h with h2
    subst h2
    refine ⟨fun x => Nat.zero_le _, fun hne => ?_⟩
    obtain ⟨y, hy⟩ := List.exists_mem_of_ne_nil temp hne
    exact ⟨y, List.count_pos_iff.mpr hy⟩
  | cons r rest ih =>
    intro temp o h
    rw [ns_deleter_loop] at h
    split at h
    · exact ih h
    next hskip =>
      split at h
      next hmem =>
        split at h
        · exact absurd h (by simp)
        next o1 heq =>
          injection h with h2
          subst h2
          obtain ⟨iha, ihb⟩ := ih heq
          have htemplen : temp.erase r ≠ [] := by
            intro hcnil
            cases temp with
            | nil => exact absurd hmem (List.not_mem_nil r)
            | cons a as =>
              cases as with
              | nil =>
                rw [List.mem_singleton] at hmem
                exact hskip (by rw [hmem])
              | cons b bs =>
                have hlen := List.length_erase_of_mem hmem
                rw [hcnil] at hlen
                simp at hlen
          constructor
          · intro x
            have iha2 := iha x
            have hopx : opDelCount meta.name meta.rrtype x
                (.del (oneRR meta r)) = List.count x [r] := by
              rw [opDelCount, if_pos ⟨rfl, rfl⟩]
              rfl
            show opDelCount meta.name meta.rrtype x (.del (oneRR meta r)) +
              delCount o1 meta.name meta.rrtype x ≤ temp.count x
            by_cases hxr : x = r
            · subst hxr
              have hc1 : List.count x [x] = 1 := by simp
              have hce := List.count_erase_self x temp
              have hmemc : 0 < temp.count x := List.count_pos_iff.mpr hmem
              rw [hopx, hc1]
              omega
            · have hc0 : List.count x [r] = 0 :=
                List.count_eq_zero.mpr (by simp [hxr])
              have hce := List.count_erase_of_ne hxr temp
              rw [hopx, hc0]
              omega
          · intro _
            obtain ⟨y, hy⟩ := ihb htemplen
            refine ⟨y, ?_⟩
            have hopy : opDelCount meta.name meta.rrtype y
                (.del (oneRR meta r)) = List.count y [r] := by
              rw [opDelCount, if_pos ⟨rfl, rfl⟩]
              rfl
            show opDelCount meta.name meta.rrtype y (.del (oneRR meta r)) +
              delCount o1 meta.name meta.rrtype y < temp.count y
            by_cases hyr : y = r
            · subst hyr
              have hc1 : List.count y [y] = 1 := by simp
              have hce := List.count_erase_self y temp
              have hmemc : 0 < temp.count y := List.count_pos_iff.mpr hmem
              rw [hopy, hc1]
              omega
            · have hc0 : List.count y [r] = 0 :=
                List.count_eq_zero.mpr (by simp [hyr])
              have hce := List.count_erase_of_ne hyr temp
              rw [hopy, hc0]
              omega
      next hmem => exact absurd h (by simp)

theorem ns_deleter_helper_bounds {z : Zone} {rrset : RRset}
    {o : List DiffOp} (h : ns_deleter_helper z rrset = .ok o)
    {nsrs : RRset}
    (hfind : zoneFind z rrset.name rrset.rrtype = some nsrs) :
    (∀ x, delCount o rrset.name rrset.rrtype x ≤ nsrs.rdata.count x) ∧
    (nsrs.rdata ≠ [] →
      ∃ y, delCount o rrset.name rrset.rrtype y < nsrs.rdata.count y) := by
  unfold ns_deleter_helper at h
  rw [finderFind_of_zoneFind hfind] at h
  exact ns_deleter_loop_bounds h

theorem do_update_delete_rrs_delCount_soa {z : Zone} {zname : Name}
    {zclass : RRClass} {rrset : RRset} {o : List DiffOp}
    (h : do_update_delete_rrs_from_rrset z zname zclass rrset = .ok o)
    (x : Rdata) : delCount o zname RRType.SOA x = 0 := by
  simp only [do_update_delete_rrs_from_rrset] at h
  split at h
  · injection h with h2; subst h2; rfl
  next hsoa =>
    split at h
    next hns =>
      refine ns_deleter_helper_delCount_other h zname RRType.SOA x ?_
      intro hc
      have h1 : rrset.rrtype = RRType.SOA := hc.2
      exact absurd (hns.2.symm.trans h1) (by decide)
    next hns =>
      refine rrset_as_rrs_delete_delCount_zero h zname RRType.SOA x ?_
      intro hc
      exact hsoa ⟨hc.1, hc.2⟩

theorem do_update_delete_rrs_delCount_ns {z : Zone} {zname : Name}
    {zclass : RRClass} {rrset : RRset} {o : List DiffOp}
    (h : do_update_delete_rrs_from_rrset z zname zclass rrset = .ok o)
    (x : Rdata)
    (hnotns : ¬(rrset.name = zname ∧ rrset.rrtype = RRType.NS)) :
    delCount o zname RRType.NS x = 0 := by
  simp only [do_update_delete_rrs_from_rrset] at h
  by_cases hsoa : rrset.name = zname ∧ rrset.rrtype = RRType.SOA
  · rw [if_pos hsoa] at h
    injection h with h2
    subst h2
    rfl
  · rw [if_neg hsoa] at h
    by_cases hns : rrset.name = zname ∧ rrset.rrtype = RRType.NS
    · exact absurd hns hnotns
    · rw [if_neg hns] at h
      refine rrset_as_rrs_delete_delCount_zero h zname RRType.NS x ?_
      intro hc
      exact hnotns ⟨hc.1, hc.2⟩

theorem dispatch_rrset_delCount_soa {z : Zone} {zname : Name}
    {zclass : RRClass} {u : RRset} {o : List DiffOp}
    (h : dispatch_rrset z zname zclass u = .ok o) (x : Rdata) :
    delCount o zname RRType.SOA x = 0 := by
  unfold dispatch_rrset at h
  split at h
  · exact do_update_add_rrs_delCount h zname RRType.SOA x (by decide)
  · split at h
    · split at h
      · exact do_update_delete_name_delCount h RRType.SOA x (Or.inl rfl)
      · exact do_update_delete_rrset_delCount h x RRType.SOA (Or.inl rfl)
    · split at h
      · exact do_update_delete_rrs_delCount_soa h x
      · injection h with h2; subst h2; rfl

theorem dispatch_rrset_delCount_ns_zero {z : Zone} {zname : Name}
    {zclass : RRClass} {u : RRset} {o : List DiffOp}
    (h : dispatch_rrset z zname zclass u = .ok o) (x : Rdata)
    (hF : ¬(u.rrclass = RRClass.NONE ∧ u.name = zname ∧
      u.rrtype = RRType.NS)) :
    delCount o zname RRType.NS x = 0 := by
  unfold dispatch_rrset at h
  split at h
  · exact do_update_add_rrs_delCount h zname RRType.NS x (by decide)
  · split at h
    · split at h
      · exact do_update_delete_name_delCount h RRType.NS x (Or.inr rfl)
      · exact do_update_delete_rrset_delCount h x RRType.NS (Or.inr rfl)
    · split at h
      next hnone =>
        refine do_update_delete_rrs_delCount_ns h x ?_
        intro hc
        exact hF ⟨hnone, hc.1, hc.2⟩
      · injection h with h2; subst h2; rfl

theorem dispatch_rrset_delCount_ns_counted {z : Zone} {zname : Name}
    {zclass : RRClass} {u : RRset} {o : List DiffOp} {nsrs : RRset}
    (h : dispatch_rrset z zname zclass u = .ok o)
    (hnz : ¬ u.rrclass = zclass)
    (hF : u.rrclass = RRClass.NONE ∧ u.name = zname ∧
      u.rrtype = RRType.NS)
    (hfind : zoneFind z zname RRType.NS = some nsrs) :
    (∀ x, delCount o zname RRType.NS x ≤ nsrs.rdata.count x) ∧
    (nsrs.rdata ≠ [] →
      ∃ y, delCount o zname RRType.NS y < nsrs.rdata.count y) := by
  unfold dispatch_rrset at h
  have hna : ¬ u.rrclass = RRClass.ANY := by
    rw [hF.1]; decide
  rw [if_neg hnz, if_neg hna, if_pos hF.1] at h
  simp only [do_update_delete_rrs_from_rrset] at h
  have hnsoa : ¬(u.name = zname ∧ u.rrtype = RRType.SOA) := fun hc =>
    absurd (hF.2.2.symm.trans hc.2) (by decide)
  rw [if_neg hnsoa, if_pos ⟨hF.2.1, hF.2.2⟩] at h
  have hfind2 : zoneFind z (rrset_class_conversion u zclass).name
      (rrset_class_conversion u zclass).rrtype = some nsrs := by
    show zoneFind z u.name u.rrtype = some nsrs
    rw [hF.2.1, hF.2.2]
    exact hfind
  have hb := ns_deleter_helper_bounds h hfind2
  constructor
  · intro x
    have h1 := hb.1 x
    simp only [rrset_class_conversion] at h1
    rw [hF.2.1, hF.2.2] at h1
    exact h1
  · intro hne
    obtain ⟨y, hy⟩ := hb.2 hne
    refine ⟨y, ?_⟩
    simp only [rrset_class_conversion] at hy
    rw [hF.2.1, hF.2.2] at hy
    exact hy

theorem dispatch_all_delCount_soa {z : Zone} {zname : Name}
    {zclass : RRClass} :
    ∀ {us : List RRset} {ops : List DiffOp},
      dispatch_all z zname zclass us = .ok ops → ∀ x,
        delCount ops zname RRType.SOA x = 0 := by
  intro us
  induction us with
  | nil =>
    intro ops h x
    injection h with h2
    subst h2
    rfl
  | cons u rest ih =>
    intro ops h x
    rw [dispatch_all] at h
    split at h
    · exact absurd h (by simp)
    next o1 heq1 =>
      split at h
      · exact absurd h (by simp)
      next o2 heq2 =>
        injection h with h2
        subst h2
        rw [delCount_append, dispatch_rrset_delCount_soa heq1 x, ih heq2 x]

theorem dispatch_all_delCount_ns_zero {z : Zone} {zname : Name}
    {zclass : RRClass} :
    ∀ {us : List RRset} {ops : List DiffOp},
      dispatch_all z zname zclass us = .ok ops →
      (∀ u ∈ us, ¬(u.rrclass = RRClass.NONE ∧ u.name = zname ∧
        u.rrtype = RRType.NS)) →
      ∀ x, delCount ops zname RRType.NS x = 0 := by
  intro us
  induction us with
  | nil =>
    intro ops h _ x
    injection h with h2
    subst h2
    rfl
  | cons u rest ih =>
    intro ops h hall x
    rw [dispatch_all] at h
    split at h
    · exact absurd h (by simp)
    next o1 heq1 =>
      split at h
      · exact absurd h (by simp)
      next o2 heq2 =>
        injection h with h2
        subst h2
        rw [delCount_append,
          dispatch_rrset_delCount_ns_zero heq1 x
            (hall u (List.mem_cons_self u rest)),
          ih heq2 (fun u2 hu2 => hall u2 (List.mem_cons_of_mem u hu2)) x]

theorem dispatch_all_ns_bound {z : Zone} {zname : Name} {zclass : RRClass}
    {nsrs : RRset} (hfind : zoneFind z zname RRType.NS = some nsrs)
    (hne : nsrs.rdata ≠ []) :
    ∀ {us : List RRset} {ops : List DiffOp},
      dispatch_all z zname zclass us = .ok ops →
      apexNoneNSCount zname us ≤ 1 →
      ∃ y, delCount ops zname RRType.NS y < nsrs.rdata.count y := by
  intro us
  induction us with
  | nil =>
    intro ops h _
    injection h with h2
    subst h2
    obtain ⟨y, hy⟩ := List.exists_mem_of_ne_nil nsrs.rdata hne
    exact ⟨y, List.count_pos_iff.mpr hy⟩
  | cons u rest ih =>
    intro ops h hcount
    rw [dispatch_all] at h
    split at h
    · exact absurd h (by simp)
    next o1 heq1 =>
      split at h
      · exact absurd h (by simp)
      next o2 heq2 =>
        injection h with h2
        subst h2
        by_cases hF : u.rrclass = RRClass.NONE ∧ u.name = zname ∧
            u.rrtype = RRType.NS
        · have hrest0 : ∀ u2 ∈ rest, ¬(u2.rrclass = RRClass.NONE ∧
              u2.name = zname ∧ u2.rrtype = RRType.NS) := by
            unfold apexNoneNSCount at hcount
            rw [List.filter_cons, if_pos (by simpa using hF)] at hcount
            rw [List.length_cons] at hcount
            have hlen0 : (rest.filter (fun u2 =>
                decide (u2.rrclass = RRClass.NONE ∧ u2.name = zname ∧
                  u2.rrtype = RRType.NS))).length = 0 := by omega
            have hnil := List.length_eq_zero.mp hlen0
            intro u2 hu2 hF2
            have := List.filter_eq_nil_iff.mp hnil u2 hu2
            exact this (decide_eq_true hF2)
          have hrest : ∀ x, delCount o2 zname RRType.NS x = 0 :=
            fun x => dispatch_all_delCount_ns_zero heq2 hrest0 x
          by_cases hcls : u.rrclass = zclass
          · have h0 : ∀ x, delCount o1 zname RRType.NS x = 0 := by
              intro x
              unfold dispatch_rrset at heq1
              rw [if_pos hcls] at heq1
              exact do_update_add_rrs_delCount heq1 zname RRType.NS x
                (by decide)
            obtain ⟨y, hy⟩ := List.exists_mem_of_ne_nil nsrs.rdata hne
            refine ⟨y, ?_⟩
            rw [delCount_append, h0 y, hrest y]
            exact List.count_pos_iff.mpr hy
          · have hb := dispatch_rrset_delCount_ns_counted heq1 hcls hF hfind
            obtain ⟨y, hy⟩ := hb.2 hne
            refine ⟨y, ?_⟩
            rw [delCount_append, hrest y]
            omega
        · have h1 : ∀ x, delCount o1 zname RRType.NS x = 0 :=
            fun x => dispatch_rrset_delCount_ns_zero heq1 x hF
          have hcount2 : apexNoneNSCount zname rest ≤ 1 := by
            unfold apexNoneNSCount at hcount ⊢
            rw [List.filter_cons, if_neg (by simpa using hF)] at hcount
            exact hcount
          obtain ⟨y, hy⟩ := ih heq2 hcount2
          refine ⟨y, ?_⟩
          rw [delCount_append, h1 y]
          omega

/-- C1 (counterexample): the claim fails as stated.  (a) Two apex
NONE-class NS records, each deleting a different one of the two stored NS
Rdata and each satisfying the claim's precondition (every requested NS
Rdata is present in the stored apex NS RRset `[1, 2]`), together delete
the whole apex NS RRset, yet the request completes with outcome SUCCESS:
each record's deleter re-reads the original zone, so neither sees the
other's buffered deletion.  (b) A zone-class SOA record owned by the
non-apex name `[0, 7]` becomes the prescan's new-SOA candidate; the apex
SOA is deleted and the candidate is added at `[0, 7]`, so the committed
zone has no apex SOA, yet the outcome is SUCCESS. -/
theorem c1_counterexample :
    (handle msgTwoNoneNS cfgA ⟨zoneA, true⟩ =
      .ok ⟨UPDATE_SUCCESS, some [0], some RRClass.IN, Rcode.NOERROR,
        zoneAfterTwoNoneNS⟩ ∧
     zoneFind zoneAfterTwoNoneNS [0] RRType.NS = none ∧
     (∀ u ∈ msgTwoNoneNS.updates, u.rrclass = RRClass.NONE → u.name = [0] →
       u.rrtype = RRType.NS → ∀ rd ∈ u.rdata, rd ∈ [1, 2])) ∧
    (handle msgSubSOA cfgA ⟨zoneA, true⟩ =
      .ok ⟨UPDATE_SUCCESS, some [0], some RRClass.IN, Rcode.NOERROR,
        zoneAfterSubSOA⟩ ∧
     zoneFind zoneAfterSubSOA [0] RRType.SOA = none) :=
  ⟨⟨rfl, rfl, by decide⟩, rfl, rfl⟩

/-- C1 (amended): a request that completes with outcome SUCCESS leaves at
least one SOA RRset and at least one NS record at the zone apex, under the
claim's stated precondition (every requested apex NONE-class NS Rdata is
present in the stored apex NS RRset) and two additional hypotheses forced
by `c1_counterexample`: the update section holds at most one apex
NONE-class NS record, and every zone-class SOA record in it is owned by
the apex. -/
theorem c1_amended (msg : Message) (cfg : ZoneConfig) (ds : Datasource)
    (zname : Name) (zclass : RRClass) (oldsoa nsrs : RRset)
    (res : HandleResult)
    (hz : get_update_zone msg cfg = .ok (zname, zclass))
    (hsoa : zoneFind ds.zone zname RRType.SOA = some oldsoa)
    (hsoane : oldsoa.rdata ≠ [])
    (hns : zoneFind ds.zone zname RRType.NS = some nsrs)
    (hnsne : nsrs.rdata ≠ [])
    (honens : apexNoneNSCount zname msg.updates ≤ 1)
    (hsoaapex : ∀ u ∈ msg.updates, u.rrclass = zclass →
      u.rrtype = RRType.SOA → u.name = zname)
    (_hreq : ∀ u ∈ msg.updates, u.rrclass = RRClass.NONE → u.name = zname →
      u.rrtype = RRType.NS → ∀ rd ∈ u.rdata, rd ∈ nsrs.rdata)
    (hrun : handle msg cfg ds = .ok res)
    (hres : res.result = UPDATE_SUCCESS) :
    (zoneFind res.zone zname RRType.SOA).isSome ∧
    ∃ rs, zoneFind res.zone zname RRType.NS = some rs ∧ rs.rdata ≠ [] := by
  obtain ⟨hpr, hdo⟩ := handle_success_inv hz hrun hres
  obtain ⟨added, soaOps, ops, hps, hsoaops, hdisp, hcommit, hz2⟩ :=
    do_update_ok_inv hdo
  obtain ⟨old, holdr, hsoaops2⟩ := update_soa_inv hsoaops
  have hfr : (finderFind ds.zone zname RRType.SOA).rrset = some oldsoa := by
    rw [finderFind_of_zoneFind hsoa]
  have holdeq : old = oldsoa := by
    rw [hfr] at holdr
    exact (Option.some.inj holdr).symm
  subst holdeq
  have hacc := do_prescan_loop_acc zname zclass msg.updates none added hps
  have hNfacts : (added.getD old).rdata ≠ [] ∧
      (added.getD old).name = zname ∧
      (added.getD old).rrtype = RRType.SOA := by
    rcases foldl_soaCandidateStep_shape zclass msg.updates none with hsh |
        ⟨u, r2, hmem, huc, hut, hur, hval⟩
    · rw [hsh] at hacc
      subst hacc
      obtain ⟨hn1, ht1⟩ := zoneFind_some_keys hsoa
      exact ⟨hsoane, hn1, ht1⟩
    · rw [hval] at hacc
      subst hacc
      refine ⟨List.cons_ne_nil r2 [], ?_, ?_⟩
      · show u.name = zname
        exact hsoaapex u hmem huc hut
      · show u.rrtype = RRType.SOA
        exact hut
  obtain ⟨hNne, hNname, hNtype⟩ := hNfacts
  obtain ⟨y0, hy0⟩ := List.exists_mem_of_ne_nil _ hNne
  have hmid : 0 < rdCount (applyDiff ds.zone soaOps) zname RRType.SOA y0 := by
    rw [hsoaops2]
    have hp := rdCount_applyAdd_pos (added.getD old) y0 hy0
      (applyDel old ds.zone)
    rw [hNname, hNtype] at hp
    exact hp
  have hdel0 := dispatch_all_delCount_soa hdisp
  have hfinal_soa : 0 < rdCount res.zone zname RRType.SOA y0 := by
    rw [hz2, applyDiff_append]
    have hge := rdCount_applyDiff_ge zname RRType.SOA y0 ops
      (applyDiff ds.zone soaOps)
    rw [hdel0 y0] at hge
    omega
  have hnskey1 : ¬(old.name = zname ∧ old.rrtype = RRType.NS) := by
    obtain ⟨_, ht1⟩ := zoneFind_some_keys hsoa
    intro hc
    exact absurd (ht1.symm.trans hc.2) (by decide)
  have hnskey2 : ¬((added.getD old).name = zname ∧
      (added.getD old).rrtype = RRType.NS) := by
    intro hc
    exact absurd (hNtype.symm.trans hc.2) (by decide)
  have hnsmid : zoneFind (applyDiff ds.zone soaOps) zname RRType.NS =
      some nsrs := by
    rw [hsoaops2]
    show zoneFind (applyAdd (added.getD old) (applyDel old ds.zone))
      zname RRType.NS = some nsrs
    rw [zoneFind_applyAdd_ne hnskey2, zoneFind_applyDel_ne hnskey1]
    exact hns
  obtain ⟨y, hy⟩ := dispatch_all_ns_bound hns hnsne hdisp honens
  have hmidns : rdCount (applyDiff ds.zone soaOps) zname RRType.NS y =
      nsrs.rdata.count y := by
    unfold rdCount
    rw [hnsmid]
  have hfinal_ns : 0 < rdCount res.zone zname RRType.NS y := by
    rw [hz2, applyDiff_append]
    have hge := rdCount_applyDiff_ge zname RRType.NS y ops
      (applyDiff ds.zone soaOps)
    rw [hmidns] at hge
    omega
  constructor
  · cases hzm : zoneFind res.zone zname RRType.SOA with
    | some rs => simp [hzm]
    | none =>
      unfold rdCount at hfinal_soa
      rw [hzm] at hfinal_soa
      simp at hfinal_soa
  · cases hzm : zoneFind res.zone zname RRType.NS with
    | none =>
      unfold rdCount at hfinal_ns
      rw [hzm] at hfinal_ns
      simp at hfinal_ns
    | some rs =>
      refine ⟨rs, rfl, ?_⟩
      intro hcnil
      unfold rdCount at hfinal_ns
      rw [hzm] at hfinal_ns
      have hpos : 0 < rs.rdata.count y := hfinal_ns
      rw [hcnil] at hpos
      simp at hpos

/-- C1 (witness): the amended theorem applied to the single apex
NONE-class NS deletion `msgOneNoneNS` on `zoneA`: the request succeeds and
the committed zone keeps the apex SOA and the NS Rdata `2`. -/
theorem c1_witness :
    apexNoneNSCount [0] msgOneNoneNS.updates ≤ 1 ∧
    ((zoneFind zoneAfterOneNoneNS [0] RRType.SOA).isSome ∧
      ∃ rs, zoneFind zoneAfterOneNoneNS [0] RRType.NS = some rs ∧
        rs.rdata ≠ []) :=
  ⟨by decide,
   c1_amended msgOneNoneNS cfgA ⟨zoneA, true⟩ [0] RRClass.IN
     ⟨[0], RRClass.IN, RRType.SOA, 3600, [100]⟩
     ⟨[0], RRClass.IN, RRType.NS, 3600, [1, 2]⟩
     ⟨UPDATE_SUCCESS, some [0], some RRClass.IN, Rcode.NOERROR,
       zoneAfterOneNoneNS⟩
     rfl rfl (by decide) rfl (by decide) (by decide) (by decide) (by decide)
     rfl rfl⟩
